import Mathlib

/-!
Shallow embedding of the categorization pipeline of the `bankzaken-analysis`
repository: the condition evaluators and rule-tree evaluators of
`pages/data_loader.py` and `pages/rule_management.py`, the rule engine
`apply_rules_to_transactions`, the prediction composer of
`src/ml_categorizer.py`, the amount cleaner of `src/data_loader.py`, the
transaction-id generation of `transaction_loader/transaction_loader.py`, and
the manual-categorization save/merge of `pages/transaction_matcher.py`.

Machine reals are modelled as rationals (the claims under study concern
ordering and conversion failure, not rounding).  Python's `re.search` is kept
abstract: both source files call the same library function, so the embedding
passes one `reSearch : pattern → text → caseSensitive → Option Bool`
parameter, `none` standing for a pattern that fails to compile (`re.error`).
-/

/-- A scalar cell of a transaction row: a string, a number (modelled as a
rational), or a missing value (Python `None` / pandas `NaN`, both of which
satisfy `pd.isna`).  Canonical transaction columns are scalars. -/
inductive Scalar where
  | str (s : String)
  | num (q : ℚ)
  | null
deriving DecidableEq

mutual

/-- A JSON value as found in a condition's `value` slot: scalar or list.
(The list constructor takes a mutually-defined list type so that all
recursion over values is structural and kernel-reducible.) -/
inductive PyVal where
  | str (s : String)
  | num (q : ℚ)
  | null
  | list (vs : PyValList)

/-- A list of JSON values. -/
inductive PyValList where
  | nil
  | cons (head : PyVal) (tail : PyValList)

end

/-- View a `PyValList` as an ordinary list. -/
def PyValList.toList : PyValList → List PyVal
  | .nil => []
  | .cons v vs => v :: vs.toList

/-- Build a `PyValList` from an ordinary list. -/
def PyValList.ofList : List PyVal → PyValList
  | [] => .nil
  | v :: vs => .cons v (PyValList.ofList vs)

/-- A transaction row: an association list from column name to cell value,
modelling the pandas `Series` handed to the evaluators by `iterrows()`. -/
abbrev Transaction := List (String × Scalar)

/-- `transaction[field]` with presence test: `field in transaction`. -/
def lookupField (t : Transaction) (f : String) : Option Scalar :=
  (t.find? (fun p => p.1 = f)).map (fun p => p.2)

/-- `pd.isna` on a scalar cell. -/
def isNa : Scalar → Bool
  | .null => true
  | _ => false

/-- Decimal digit value of a digit character. -/
def digitVal (c : Char) : Nat := c.toNat - 48

/-- Value of a decimal digit string (most significant first). -/
def decDigitsVal (cs : List Char) : Nat :=
  cs.foldl (fun a c => 10 * a + digitVal c) 0

/-- Rational from a natural number, built with kernel-reducible `mkRat`. -/
def qOfNat (n : Nat) : ℚ := mkRat (Int.ofNat n) 1

/-- Negation on `ℚ`, built with kernel-reducible `mkRat`. -/
def qNeg (a : ℚ) : ℚ := mkRat (-a.num) a.den

/-- Multiplication by `10 ^ e` on `ℚ`, built with kernel-reducible `mkRat`. -/
def qMulPow10 (v : ℚ) (e : ℤ) : ℚ :=
  if 0 ≤ e then mkRat (v.num * (10 : ℤ) ^ e.toNat) v.den
  else mkRat v.num (v.den * 10 ^ (-e).toNat)

/-- Parse a non-empty all-digit character list. -/
def parseNatDigits (cs : List Char) : Option Nat :=
  if cs ≠ [] ∧ cs.all Char.isDigit then some (decDigitsVal cs) else none

/-- Integer decimal rendering, as Python `str` on an `int`. -/
def intRepr (i : ℤ) : String :=
  (if i < 0 then "-" else "") ++ Nat.repr i.natAbs

/-- Models Python `str()` on a numeric cell.  Integral values render as
Python floats do (`str(12.0) = "12.0"`); finite decimal fractions render
with their decimal digits.  (No claim inspects the string form of a number
that a float would print in exponent form.) -/
def numRepr (q : ℚ) : String :=
  let sign := if q < 0 then "-" else ""
  let n := q.num.natAbs
  let d := q.den
  if d = 1 then sign ++ Nat.repr n ++ ".0"
  else
    match (List.range 21).find? (fun k => 10 ^ k % d = 0) with
    | some k =>
      let scaled := n * (10 ^ k / d)
      let ds := (Nat.repr scaled).toList
      let ds := if ds.length ≤ k then
          List.replicate (k + 1 - ds.length) '0' ++ ds else ds
      sign ++ (ds.take (ds.length - k)).asString ++ "." ++
        (ds.drop (ds.length - k)).asString
    | none => sign ++ Nat.repr n ++ "/" ++ Nat.repr d

/-- Python `str()` on a scalar cell. -/
def pyStr : Scalar → String
  | .str s => s
  | .num q => numRepr q
  | .null => "None"

mutual

/-- Python `str()` on a JSON value (lists print their entries' `repr`). -/
def pyValStr : PyVal → String
  | .str s => s
  | .num q => numRepr q
  | .null => "None"
  | .list vs => "[" ++ String.intercalate ", " (pyValReprList vs) ++ "]"

/-- Python `repr()` on a JSON value, used for list entries. -/
def pyValRepr : PyVal → String
  | .str s => "\x27" ++ s ++ "\x27"
  | .num q => numRepr q
  | .null => "None"
  | .list vs => "[" ++ String.intercalate ", " (pyValReprList vs) ++ "]"

/-- `repr` over a list of JSON values. -/
def pyValReprList : PyValList → List String
  | .nil => []
  | .cons v vs => pyValRepr v :: pyValReprList vs

end

/-- Strip leading and trailing whitespace, as Python `str.strip()` /
Lean `String.trim` do. -/
def trimChars (cs : List Char) : List Char :=
  ((cs.dropWhile Char.isWhitespace).reverse.dropWhile Char.isWhitespace).reverse

/-- Split a character list at the first character satisfying `p`; returns the
part before and, when found, the part after the separator. -/
def breakAtChar (p : Char → Bool) : List Char → List Char × Option (List Char)
  | [] => ([], none)
  | c :: rest =>
    if p c then ([], some rest)
    else
      let r := breakAtChar p rest
      (c :: r.1, r.2)

/-- Consume an optional leading sign; returns (negative?, rest). -/
def parseSign : List Char → Bool × List Char
  | [] => (false, [])
  | c :: r =>
    if c = '+' then (false, r)
    else if c = '-' then (true, r)
    else (false, c :: r)

/-- Parse an unsigned decimal mantissa `digits[.digits]` (at least one digit
overall, nothing else). -/
def parseMantissa (cs : List Char) : Option ℚ :=
  let r := breakAtChar (fun c => c = '.') cs
  match r.2 with
  | none => (parseNatDigits r.1).map qOfNat
  | some fp =>
    if r.1.all Char.isDigit ∧ fp.all Char.isDigit ∧ (r.1 ≠ [] ∨ fp ≠ []) then
      some (mkRat
        (Int.ofNat (decDigitsVal r.1 * 10 ^ fp.length + decDigitsVal fp))
        (10 ^ fp.length))
    else none

/-- Parse a signed decimal exponent. -/
def parseExponent (cs : List Char) : Option ℤ :=
  let s := parseSign cs
  (parseNatDigits s.2).map (fun n => if s.1 then -(n : ℤ) else (n : ℤ))

/-- Models Python `float()` on a string: optional surrounding whitespace,
optional sign, decimal mantissa, optional exponent.  (`inf`/`nan` literals and
digit-group underscores are not modelled; no claim involves them.)  `none`
models `ValueError`. -/
def pyFloatOfString (s : String) : Option ℚ :=
  let s0 := parseSign (trimChars s.toList)
  let m := breakAtChar (fun c => c = 'e' ∨ c = 'E') s0.2
  match parseMantissa m.1, m.2 with
  | some v, none => some (if s0.1 then qNeg v else v)
  | some v, some es =>
    (parseExponent es).map (fun e =>
      let w := qMulPow10 v e
      if s0.1 then qNeg w else w)
  | none, _ => none

/-- Python `float()` on a scalar cell (`float(None)` raises → `none`). -/
def pyFloatScalar : Scalar → Option ℚ
  | .num q => some q
  | .str s => pyFloatOfString s
  | .null => none

/-- Python `float()` on a JSON value (`float` of a list raises → `none`). -/
def pyFloatVal : PyVal → Option ℚ
  | .num q => some q
  | .str s => pyFloatOfString s
  | .null => none
  | .list _ => none

/-- Python `str.lower()` (ASCII case folding, as exercised by the claims). -/
def pyLower (s : String) : String := (s.toList.map Char.toLower).asString

/-- Python substring test `needle in hay` over character lists. -/
def listContainsSub (needle : List Char) : List Char → Bool
  | [] => needle.isEmpty
  | c :: rest => needle.isPrefixOf (c :: rest) || listContainsSub needle rest

/-- Python `needle in hay` on strings. -/
def pyInStr (needle hay : String) : Bool :=
  listContainsSub needle.toList hay.toList

/-- Python `s.startswith(p)`. -/
def pyStarts (s p : String) : Bool := p.toList.isPrefixOf s.toList

/-- Python `s.endswith(p)`. -/
def pyEnds (s p : String) : Bool := p.toList.isSuffixOf s.toList

/-- A leaf condition object, with the defaults `condition.get` applies:
`field` and `operator` default to `""`, `value` to `""`, `case_sensitive` to
`False`.  (A missing key and its default are indistinguishable to the
evaluators, which read the four keys only through `.get`.) -/
structure Condition where
  field : String
  operator : String
  value : PyVal
  case_sensitive : Bool

/-- The abstract interface to `re.search(pattern, text, flags)`: the third
argument is the condition's `case_sensitive` (false ⇒ `re.IGNORECASE`), and
`none` models a pattern that fails to compile (`re.error`). -/
abbrev ReSearch := String → String → Bool → Option Bool

namespace DataLoaderPage

/-- `evaluate_condition` of `pages/data_loader.py` (the rule engine's
evaluator): field lookup, `pd.isna` guard, string conversion and optional
case folding, then dispatch on the operator in source order; any
fall-through returns `False`. -/
def evaluate_condition (reSearch : ReSearch) (transaction : Transaction)
    (condition : Condition) : Bool :=
  let field := condition.field
  let operator := condition.operator
  let value := condition.value
  let case_sensitive := condition.case_sensitive
  match lookupField transaction field with
  | none => false
  | some field_value =>
    if isNa field_value then false
    else
      let field_str0 := pyStr field_value
      let value_str0 := pyValStr value
      let field_str := if case_sensitive then field_str0 else pyLower field_str0
      let value_str := if case_sensitive then value_str0 else pyLower value_str0
      if operator = "contains" then pyInStr value_str field_str
      else if operator = "equals" then field_str == value_str
      else if operator = "starts_with" then pyStarts field_str value_str
      else if operator = "ends_with" then pyEnds field_str value_str
      else if operator = "greater_than" then
        match pyFloatScalar field_value, pyFloatVal value with
        | some a, some b => decide (b < a)
        | _, _ => false
      else if operator = "less_than" then
        match pyFloatScalar field_value, pyFloatVal value with
        | some a, some b => decide (a < b)
        | _, _ => false
      else if operator = "regex" then
        match reSearch value_str field_str case_sensitive with
        | some r => r
        | none => false
      else false

end DataLoaderPage

namespace RuleManagementPage

/-- `evaluate_condition` of `pages/rule_management.py` (the rule editor's
evaluator): identical to the engine's for the seven shared operators, and
additionally implements `between` and `in`. -/
def evaluate_condition (reSearch : ReSearch) (transaction : Transaction)
    (condition : Condition) : Bool :=
  let field := condition.field
  let operator := condition.operator
  let value := condition.value
  let case_sensitive := condition.case_sensitive
  match lookupField transaction field with
  | none => false
  | some field_value =>
    if isNa field_value then false
    else
      let field_str0 := pyStr field_value
      let value_str0 := pyValStr value
      let field_str := if case_sensitive then field_str0 else pyLower field_str0
      let value_str := if case_sensitive then value_str0 else pyLower value_str0
      if operator = "contains" then pyInStr value_str field_str
      else if operator = "equals" then field_str == value_str
      else if operator = "starts_with" then pyStarts field_str value_str
      else if operator = "ends_with" then pyEnds field_str value_str
      else if operator = "regex" then
        match reSearch value_str field_str case_sensitive with
        | some r => r
        | none => false
      else if operator = "greater_than" then
        match pyFloatScalar field_value, pyFloatVal value with
        | some a, some b => decide (b < a)
        | _, _ => false
      else if operator = "less_than" then
        match pyFloatScalar field_value, pyFloatVal value with
        | some a, some b => decide (a < b)
        | _, _ => false
      else if operator = "between" then
        match value with
        | .list (.cons lo (.cons hi .nil)) =>
          match pyFloatScalar field_value, pyFloatVal lo, pyFloatVal hi with
          | some val, some l, some h => decide (l ≤ val ∧ val ≤ h)
          | _, _, _ => false
        | _ => false
      else if operator = "in" then
        match value with
        | .list vs =>
          if case_sensitive then (vs.toList.map pyValStr).contains field_str
          else
            (vs.toList.map (fun v => pyLower (pyValStr v))).contains
              (pyLower field_str)
        | _ => field_str == value_str
      else false

end RuleManagementPage

-- quick sanity checks of the evaluators on concrete inputs
example :
    DataLoaderPage.evaluate_condition (fun _ _ _ => none)
      [("Description", .str "ALBERT HEIJN 1234")]
      ⟨"Description", "contains", .str "albert heijn", false⟩ = true := by
  decide

example :
    DataLoaderPage.evaluate_condition (fun _ _ _ => none)
      [("Description", .str "abc")]
      ⟨"Description", "equals", .str "ABC", false⟩ = true := by decide

example :
    DataLoaderPage.evaluate_condition (fun _ _ _ => none)
      [("Description", .str "abc")]
      ⟨"Description", "equals", .str "ABC", true⟩ = false := by decide

example :
    DataLoaderPage.evaluate_condition (fun _ _ _ => none)
      [("Amount", .str "12.5")]
      ⟨"Amount", "greater_than", .num 12, false⟩ = true := by decide

example :
    DataLoaderPage.evaluate_condition (fun _ _ _ => none)
      [("Amount", .str "x")]
      ⟨"Amount", "greater_than", .num 12, false⟩ = false := by decide

example :
    RuleManagementPage.evaluate_condition (fun _ _ _ => none)
      [("f", .str "B")]
      ⟨"f", "in", .list (PyValList.ofList [.str "a", .str "b"]), false⟩ = true := by decide

example :
    RuleManagementPage.evaluate_condition (fun _ _ _ => none)
      [("f", .num 5)]
      ⟨"f", "between", .list (PyValList.ofList [.num 1, .num 10]), false⟩ = true := by decide

example :
    DataLoaderPage.evaluate_condition (fun _ _ _ => none)
      [("f", .str "x")]
      ⟨"f", "in", .list (PyValList.ofList [.str "x"]), false⟩ = false := by decide

mutual

/-- A node of a rule's condition tree.  A JSON node carrying a `field` key is
a leaf condition; a node without `field` is composite with an optional
`operator` key (`conditions.get('operator', 'AND')`) and child `rules`.
A missing `rules` key and an empty `rules` list are indistinguishable to the
evaluator (`conditions.get('rules', [])`), so both are the empty list here. -/
inductive CondNode where
  | leaf (c : Condition)
  | comp (operator : Option String) (rules : CondNodeList)

/-- A list of condition-tree nodes. -/
inductive CondNodeList where
  | nil
  | cons (head : CondNode) (tail : CondNodeList)

end

/-- View a `CondNodeList` as an ordinary list. -/
def CondNodeList.toList : CondNodeList → List CondNode
  | .nil => []
  | .cons n ns => n :: ns.toList

/-- Build a `CondNodeList` from an ordinary list. -/
def CondNodeList.ofList : List CondNode → CondNodeList
  | [] => .nil
  | n :: ns => .cons n (CondNodeList.ofList ns)

/-- `rules`' emptiness test (`if not rules`). -/
def CondNodeList.isEmpty : CondNodeList → Bool
  | .nil => true
  | .cons _ _ => false

mutual

/-- `evaluate_rule_conditions`, present verbatim in both
`pages/data_loader.py` and `pages/rule_management.py`, parameterised by the
file's own leaf evaluator: a leaf delegates to `evaluate_condition`; a
composite node evaluates every child, then combines with `all` under `AND`
(the default operator), `any` under `OR`, and yields `False` for an empty
child list or any other operator. -/
def evaluate_rule_conditions (leafEval : Condition → Bool) : CondNode → Bool
  | .leaf c => leafEval c
  | .comp operator rules =>
    if rules.isEmpty then false
    else
      let results := evalNodeList leafEval rules
      let op := operator.getD "AND"
      if op = "AND" then results.all (fun b => b)
      else if op = "OR" then results.any (fun b => b)
      else false

/-- Child-by-child evaluation of a condition-node list. -/
def evalNodeList (leafEval : Condition → Bool) : CondNodeList → List Bool
  | .nil => []
  | .cons n ns => evaluate_rule_conditions leafEval n :: evalNodeList leafEval ns

end

/-- A categorization rule as read from the rules document, with `Option`
fields standing for possibly-missing JSON keys (the engine reads each through
`rule.get` with a default).  `conditions = none` covers both a missing
`conditions` key and the empty object: both are falsy, making the engine
skip the rule. -/
structure Rule where
  id : Option String
  name : Option String
  priority : Option Int
  active : Option Bool
  category : Option String
  subcategory : Option String
  conditions : Option CondNode

namespace DataLoaderPage

/-- `rule.get('active', True)`: the active-rule filter predicate. -/
def activeFlag (r : Rule) : Bool := r.active.getD true

/-- `rule.get('priority', 50)`: the sort key. -/
def priorityKey (r : Rule) : ℤ := r.priority.getD 50

/-- `rule.get('name', 'Unknown Rule')`. -/
def ruleName (r : Rule) : String := r.name.getD "Unknown Rule"

/-- `rule.get('id', '')`. -/
def ruleId (r : Rule) : String := r.id.getD ""

/-- Insert a rule before the first element of not-larger priority.  Folded
from the right this realises Python's stable
`active_rules.sort(key=lambda x: x.get('priority', 50), reverse=True)`:
descending by priority, equal priorities keeping original order. -/
def insertByPriority (r : Rule) : List Rule → List Rule
  | [] => [r]
  | x :: xs =>
    if priorityKey x ≤ priorityKey r then r :: x :: xs
    else x :: insertByPriority r xs

/-- Stable descending sort by priority (see `insertByPriority`). -/
def sortByPriorityDesc : List Rule → List Rule
  | [] => []
  | r :: rs => insertByPriority r (sortByPriorityDesc rs)

/-- Column assignment `df.loc[idx, k] = v`: replace the first binding of the
column, or append it when absent. -/
def setField : Transaction → String → Scalar → Transaction
  | [], k, v => [(k, v)]
  | (k2, v2) :: rest, k, v =>
    if k2 = k then (k, v) :: rest else (k2, v2) :: setField rest k v

/-- The engine's opening writes: `Category`, `Subcategory` and
`Categorization_Source` are set to `''` for every row before any rule runs. -/
def resetCategories (row : Transaction) : Transaction :=
  setField (setField (setField row "Category" (.str ""))
    "Subcategory" (.str "")) "Categorization_Source" (.str "")

/-- One rule against one transaction: skipped without conditions, otherwise
its condition tree under this file's `evaluate_condition`. -/
def matchesRule (reSearch : ReSearch) (t : Transaction) (r : Rule) : Bool :=
  match r.conditions with
  | none => false
  | some c => evaluate_rule_conditions (evaluate_condition reSearch t) c

/-- The three assignments performed when a rule wins. -/
def assignRule (row : Transaction) (r : Rule) : Transaction :=
  setField (setField (setField row "Category" (.str (r.category.getD "")))
    "Subcategory" (.str (r.subcategory.getD "")))
    "Categorization_Source" (.str ("Rule: " ++ ruleName r))

/-- The engine's per-row skip test: `pd.notna(current_category) and
str(current_category).strip()` on the just-written `Category` cell. -/
def skipCheck (row : Transaction) : Bool :=
  match lookupField row "Category" with
  | some v => !(isNa v) && !(List.isEmpty (trimChars (pyStr v).toList))
  | none => false

/-- `rule_matches[rule_id] += 1` on an insertion-ordered association list. -/
def bumpCount (k : String) : List (String × Nat) → List (String × Nat)
  | [] => [(k, 1)]
  | (k2, n) :: rest =>
    if k2 = k then (k2, n + 1) :: rest else (k2, n) :: bumpCount k rest

/-- Look a count up (0 when the key was never bumped). -/
def countOf (k : String) (counts : List (String × Nat)) : Nat :=
  ((counts.find? (fun p => p.1 = k)).map (fun p => p.2)).getD 0

/-- The body of the engine's per-transaction loop: reset the three columns,
run the (dead) skip check, then scan the sorted active rules for the first
match; returns the written row and the winning rule, if any. -/
def processTransaction (reSearch : ReSearch) (active_rules : List Rule)
    (row : Transaction) : Transaction × Option Rule :=
  let row0 := resetCategories row
  if skipCheck row0 then (row0, none)
  else
    match active_rules.find? (matchesRule reSearch row0) with
    | some r => (assignRule row0 r, some r)
    | none => (row0, none)

/-- `apply_rules_to_transactions` of `pages/data_loader.py`: filter to active
rules, sort by descending priority (stable), then categorize every row,
counting matches per rule id.  Returns the written table and the
`rule_matches` mapping. -/
def apply_rules_to_transactions (reSearch : ReSearch) (rules : List Rule)
    (transactions_df : List Transaction) :
    List Transaction × List (String × Nat) :=
  let active_rules := sortByPriorityDesc (rules.filter activeFlag)
  transactions_df.foldl
    (fun acc row =>
      let p := processTransaction reSearch active_rules row
      match p.2 with
      | some r => (acc.1 ++ [p.1], bumpCount (ruleId r) acc.2)
      | none => (acc.1 ++ [p.1], acc.2))
    ([], [])

end DataLoaderPage

namespace MLCategorizer

/-- `confidence_threshold` resolution in `predict_categories`:
`self.ml_config.get('confidence_threshold', 0.7)` when the caller passes
`None`. -/
def resolveThreshold (cfg : Option ℚ) : ℚ := cfg.getD (mkRat 7 10)

/-- The per-row composition of rule and ML predictions in
`predict_categories`: the ML label and method `"ml"` exactly where the rule
prediction is `'unknown'` and the confidence reaches the threshold
(`ml_mask`); otherwise the rule prediction stands with method `"rule"`. -/
def composePrediction (rulePred mlPred : String) (conf threshold : ℚ) :
    String × String :=
  if rulePred == "unknown" && decide (threshold ≤ conf) then (mlPred, "ml")
  else (rulePred, "rule")

end MLCategorizer

namespace SrcDataLoader

/-- The currency-symbol strip of `_clean_amount_column`
(`str.replace(r'[€$£¥]', '', regex=True)`). -/
def removeCurrency (cs : List Char) : List Char :=
  cs.filter (fun c => !(c = '€' ∨ c = '$' ∨ c = '£' ∨ c = '¥'))

/-- `str.rfind(c)`: index of the last occurrence, if any. -/
def rfindPos (c : Char) (cs : List Char) : Option Nat :=
  match cs.reverse.findIdx? (fun x => x = c) with
  | some i => some (cs.length - 1 - i)
  | none => none

/-- The separator normalisation inside `clean_amount`: with both separators
present, the rightmost is the decimal one (the other is removed); with only
a comma, it becomes a decimal point exactly when followed by one or two
digits and nothing else, and is otherwise removed as a thousands separator. -/
def sepNormalize (cs : List Char) : List Char :=
  if cs.contains ',' ∧ cs.contains '.' then
    match rfindPos ',' cs, rfindPos '.' cs with
    | some cp, some dp =>
      if dp < cp then
        (cs.filter (fun c => c ≠ '.')).map (fun c => if c = ',' then '.' else c)
      else cs.filter (fun c => c ≠ ',')
    | _, _ => cs
  else if cs.contains ',' then
    match rfindPos ',' cs with
    | some cp =>
      if (cs.drop (cp + 1)).length ≤ 2 ∧ cs.drop (cp + 1) ≠ [] ∧
          (cs.drop (cp + 1)).all Char.isDigit then
        cs.map (fun c => if c = ',' then '.' else c)
      else cs.filter (fun c => c ≠ ',')
    | none => cs
  else cs

/-- The inner `clean_amount` of `_clean_amount_column`: sentinel check,
space removal, separator normalisation, then `float()`. -/
def clean_amount (s : String) : Option ℚ :=
  if s = "" ∨ s = "nan" ∨ s = "NaN" then none
  else
    pyFloatOfString
      (sepNormalize (s.toList.filter (fun c => c ≠ ' '))).asString

/-- `_clean_amount_column` on one cell already rendered as a string:
`.str.strip()`, currency-symbol removal, then `clean_amount`. -/
def cleanAmountCell (s : String) : Option ℚ :=
  clean_amount (removeCurrency (trimChars s.toList)).asString

end SrcDataLoader

namespace TransactionLoader

/-- The six `id_components` of `generate_transaction_id`, each read with
`row.get(key, '')` and rendered with `str()`. -/
def id_components (row : Transaction) : List String :=
  ["Date", "Amount", "Description", "Counterparty_Name", "Account_Number",
    "Sequence_Number"].map
    (fun k => match lookupField row k with | some v => pyStr v | none => "")

/-- `'|'.join(id_components)`. -/
def joinBar : List String → String
  | [] => ""
  | [s] => s
  | s :: rest => s ++ "|" ++ joinBar rest

/-- `generate_transaction_id`, parameterised by the hash:
`digest` stands for `hashlib.md5(·.encode('utf-8')).hexdigest()`, which
always yields 32 lowercase hex characters; the id is `"TXN_"` plus the
first 8 digest characters uppercased. -/
def generate_transaction_id (digest : String → String) (row : Transaction) :
    String :=
  "TXN_" ++ (((digest (joinBar (id_components row))).toList.take 8).map
    Char.toUpper).asString

/-- `groupby('Transaction_ID').cumcount()` at position `i`: how many earlier
positions carry the same id. -/
def countPrevOcc (ids : List String) (i : Nat) : Nat :=
  ((ids.take i).filter (fun s => s = ids.getD i "")).length

/-- The duplicate-id pass of `load_all_transactions`: every id whose
cumcount is positive gets `'_' + str(cumcount)` appended. -/
def addSuffixes (ids : List String) : List String :=
  ids.mapIdx (fun i id =>
    let c := countPrevOcc ids i
    if c = 0 then id else id ++ "_" ++ Nat.repr c)

/-- Id assignment in `load_all_transactions`: generate an id per row, then
run the duplicate pass only when `duplicated().sum() > 0`. -/
def assignIds (digest : String → String) (rows : List Transaction) :
    List String :=
  let ids := rows.map (generate_transaction_id digest)
  if ids.Nodup then ids else addSuffixes ids

end TransactionLoader

namespace TransactionMatcher

/-- A row of the persisted `categorized_transactions.csv` dataset. -/
structure CatRecord where
  transaction_id : String
  category : String
  subcategory : String
  date_categorized : String
  source : String
deriving DecidableEq

/-- `save_categorized_transaction`: drop every existing row with the new
record's `Transaction_ID`, then append the new record (the file write and
the timestamp inside `new_record` are the caller's concern). -/
def save_categorized_transaction (existing : List CatRecord)
    (new_record : CatRecord) : List CatRecord :=
  (existing.filter
    (fun r => r.transaction_id ≠ new_record.transaction_id)) ++ [new_record]

/-- A rule-categorized row as the merge step consumes it: the four columns
`transaction_matcher` selects from the engine's output. -/
structure RuleRow where
  transaction_id : String
  category : String
  subcategory : String
  categorization_source : String
deriving DecidableEq

/-- Format a rule row for the merged dataset (`Date_Categorized := now`,
`Source := Categorization_Source`). -/
def formatRuleRow (now : String) (r : RuleRow) : CatRecord :=
  ⟨r.transaction_id, r.category, r.subcategory, now, r.categorization_source⟩

/-- The merge in `transaction_matcher`: with manual rows present, keep them
all and append only rule rows whose id is not manually categorized (and
whose category is non-blank); with no manual rows, just the non-blank rule
rows. -/
def mergeCategorized (manual : List CatRecord) (ruleRows : List RuleRow)
    (now : String) : List CatRecord :=
  if manual.isEmpty then
    (ruleRows.filter
      (fun r => !(List.isEmpty (trimChars r.category.toList)))).map
      (formatRuleRow now)
  else
    let manualIds := manual.map (fun r => r.transaction_id)
    let rule_only :=
      ruleRows.filter (fun r => !(manualIds.contains r.transaction_id))
    let rule_formatted :=
      rule_only.filter (fun r => !(List.isEmpty (trimChars r.category.toList)))
    manual ++ rule_formatted.map (formatRuleRow now)

end TransactionMatcher

-- sanity checks (concrete evaluations)
example : SrcDataLoader.cleanAmountCell "1.234,56" = some (mkRat 123456 100) := by decide
example : SrcDataLoader.cleanAmountCell "1,234.56" = some (mkRat 123456 100) := by decide
example : SrcDataLoader.cleanAmountCell "invalid" = none := by decide
example : SrcDataLoader.cleanAmountCell "€ 12,30" = some (mkRat 123 10) := by decide
example : SrcDataLoader.cleanAmountCell "1,234" = some (mkRat 1234 1) := by decide
example : SrcDataLoader.cleanAmountCell "12,3" = some (mkRat 123 10) := by decide
example :
    TransactionLoader.assignIds (fun _ => "0123456789abcdef0123456789abcdef")
      [[("Date", .str "a")], [("Date", .str "b")]] =
    ["TXN_01234567", "TXN_01234567_1"] := by decide
example :
    MLCategorizer.composePrediction "unknown" "food" (mkRat 85 100)
      (MLCategorizer.resolveThreshold none) = ("food", "ml") := by decide
example :
    MLCategorizer.composePrediction "unknown" "food" (mkRat 65 100)
      (MLCategorizer.resolveThreshold none) = ("unknown", "rule") := by decide
example :
    (DataLoaderPage.apply_rules_to_transactions (fun _ _ _ => none)
      [⟨some "r1", some "Groceries", some 90, some true, some "Food",
        some "Groceries", some (.leaf ⟨"Description", "contains",
          .str "ALBERT HEIJN", false⟩)⟩]
      [[("Description", .str "ALBERT HEIJN 1234")],
       [("Description", .str "NETFLIX.COM")]]).2 = [("r1", 1)] := by decide

/-! ### Helper lemmas -/

/-- `Char.ofNat` round-trips on valid code points. -/
theorem charOfNat_toNat {n : Nat} (h : n.isValidChar) :
    (Char.ofNat n).toNat = n := by
  simp only [Char.ofNat, h, dif_pos, Char.ofNatAux, Char.toNat]
  rfl

/-- ASCII lowering is idempotent. -/
theorem toLower_idem (c : Char) :
    Char.toLower (Char.toLower c) = Char.toLower c := by
  unfold Char.toLower
  by_cases h : c.toNat ≥ 65 ∧ c.toNat ≤ 90
  · have hv : (c.toNat + 32).isValidChar := by left; omega
    have ht : (Char.ofNat (c.toNat + 32)).toNat = c.toNat + 32 :=
      charOfNat_toNat hv
    have hnot : ¬ ((Char.ofNat (c.toNat + 32)).toNat ≥ 65 ∧
        (Char.ofNat (c.toNat + 32)).toNat ≤ 90) := by rw [ht]; omega
    simp only [h, and_self, if_true, hnot, if_false]
  · simp [h]

/-- Python-style `lower` is idempotent. -/
theorem pyLower_idem (s : String) : pyLower (pyLower s) = pyLower s := by
  simp only [pyLower]
  rw [show ((s.toList.map Char.toLower).asString).toList =
      s.toList.map Char.toLower from List.toList_asString _]
  simp [List.map_map, Function.comp_def, toLower_idem]

/-- The node-list evaluator is just a `map` of the node evaluator. -/
theorem evalNodeList_eq_map (leafEval : Condition → Bool) :
    ∀ (rs : CondNodeList),
      evalNodeList leafEval rs =
        rs.toList.map (evaluate_rule_conditions leafEval)
  | .nil => rfl
  | .cons n ns => by
    simp [evalNodeList, CondNodeList.toList, evalNodeList_eq_map leafEval ns]

/-! ### C4 — condition-tree evaluation -/

/-- C4: a node with a `field` key evaluates as a leaf condition; a node
without `field` reads `operator` (default `AND`) and `rules` (default empty),
evaluates every child recursively and combines with AND/OR; an empty child
list gives `false`, and so does any operator other than `AND`/`OR`. -/
theorem tree_evaluator_semantics :
    (∀ (leafEval : Condition → Bool) (c : Condition),
      evaluate_rule_conditions leafEval (.leaf c) = leafEval c) ∧
    (∀ (leafEval : Condition → Bool) (rs : CondNodeList),
      evaluate_rule_conditions leafEval (.comp none rs) =
        evaluate_rule_conditions leafEval (.comp (some "AND") rs)) ∧
    (∀ (leafEval : Condition → Bool) (op : Option String),
      evaluate_rule_conditions leafEval (.comp op .nil) = false) ∧
    (∀ (leafEval : Condition → Bool) (op : Option String) (rs : CondNodeList),
      op.getD "AND" ≠ "AND" → op.getD "AND" ≠ "OR" →
      evaluate_rule_conditions leafEval (.comp op rs) = false) ∧
    (∀ (leafEval : Condition → Bool) (op : Option String) (rs : CondNodeList),
      evaluate_rule_conditions leafEval (.comp op rs) = true ↔
        (rs.toList ≠ [] ∧
          ((op.getD "AND" = "AND" ∧
              ∀ n ∈ rs.toList, evaluate_rule_conditions leafEval n = true) ∨
            (op.getD "AND" = "OR" ∧
              ∃ n ∈ rs.toList, evaluate_rule_conditions leafEval n = true)))) := by
  refine ⟨fun le c => rfl, ?_, ?_, ?_, ?_⟩
  · intro le rs
    simp [evaluate_rule_conditions]
  · intro le op
    simp [evaluate_rule_conditions, CondNodeList.isEmpty]
  · intro le op rs h1 h2
    cases rs with
    | nil => simp [evaluate_rule_conditions, CondNodeList.isEmpty]
    | cons n ns =>
      simp [evaluate_rule_conditions, CondNodeList.isEmpty, h1, h2]
  · intro le op rs
    cases rs with
    | nil => simp [evaluate_rule_conditions, CondNodeList.isEmpty,
        CondNodeList.toList]
    | cons n ns =>
      by_cases hAnd : op.getD "AND" = "AND"
      · simp [evaluate_rule_conditions, CondNodeList.isEmpty, hAnd,
          evalNodeList_eq_map, List.all_eq_true, CondNodeList.toList]
      · by_cases hOr : op.getD "AND" = "OR"
        · simp [evaluate_rule_conditions, CondNodeList.isEmpty, hAnd, hOr,
            evalNodeList_eq_map, List.any_eq_true, CondNodeList.toList]
        · simp [evaluate_rule_conditions, CondNodeList.isEmpty, hAnd, hOr,
            CondNodeList.toList]

/-- Witness for C4 at concrete inputs. -/
theorem tree_evaluator_semantics_witness :
    evaluate_rule_conditions (fun _ => true)
      (.comp (some "XOR")
        (.cons (.leaf ⟨"f", "equals", .str "x", false⟩) .nil)) = false :=
  tree_evaluator_semantics.2.2.2.1 (fun _ => true) (some "XOR")
    (.cons (.leaf ⟨"f", "equals", .str "x", false⟩) .nil)
    (by decide) (by decide)

/-! ### C5 — rule/ML prediction composition -/

/-- C5: a non-`"unknown"` rule prediction always wins with method `"rule"`;
otherwise the ML label is taken exactly when its confidence reaches the
threshold (default `0.7`), with method `"ml"`; below the threshold the label
stays `"unknown"` with method `"rule"`.  Includes the spec's two fallback
vectors (confidence `0.65` and `0.85` against the default threshold). -/
theorem composer_fallback_policy :
    (∀ (rulePred mlPred : String) (conf threshold : ℚ), rulePred ≠ "unknown" →
      MLCategorizer.composePrediction rulePred mlPred conf threshold =
        (rulePred, "rule")) ∧
    (∀ (mlPred : String) (conf threshold : ℚ), threshold ≤ conf →
      MLCategorizer.composePrediction "unknown" mlPred conf threshold =
        (mlPred, "ml")) ∧
    (∀ (mlPred : String) (conf threshold : ℚ), conf < threshold →
      MLCategorizer.composePrediction "unknown" mlPred conf threshold =
        ("unknown", "rule")) ∧
    MLCategorizer.resolveThreshold none = mkRat 7 10 ∧
    (∀ q : ℚ, MLCategorizer.resolveThreshold (some q) = q) ∧
    (∀ mlPred : String,
      MLCategorizer.composePrediction "unknown" mlPred (mkRat 65 100)
        (MLCategorizer.resolveThreshold none) = ("unknown", "rule")) ∧
    (∀ mlPred : String,
      MLCategorizer.composePrediction "unknown" mlPred (mkRat 85 100)
        (MLCategorizer.resolveThreshold none) = (mlPred, "ml")) := by
  refine ⟨?_, ?_, ?_, rfl, fun q => rfl, ?_, ?_⟩
  · intro rp mp conf thr h
    simp [MLCategorizer.composePrediction, h]
  · intro mp conf thr h
    simp [MLCategorizer.composePrediction, h]
  · intro mp conf thr h
    simp [MLCategorizer.composePrediction, not_le.mpr h]
  · intro mp
    simp [MLCategorizer.composePrediction, MLCategorizer.resolveThreshold]
    decide
  · intro mp
    simp [MLCategorizer.composePrediction, MLCategorizer.resolveThreshold]
    decide

/-- Witness for C5 at concrete inputs. -/
theorem composer_fallback_policy_witness :
    MLCategorizer.composePrediction "groceries" "x" (mkRat 1 2) (mkRat 7 10) =
      ("groceries", "rule") ∧
    MLCategorizer.composePrediction "unknown" "x" (mkRat 9 10) (mkRat 7 10) =
      ("x", "ml") ∧
    MLCategorizer.composePrediction "unknown" "x" (mkRat 1 2) (mkRat 7 10) =
      ("unknown", "rule") :=
  ⟨composer_fallback_policy.1 "groceries" "x" (mkRat 1 2) (mkRat 7 10)
      (by decide),
   composer_fallback_policy.2.1 "x" (mkRat 9 10) (mkRat 7 10) (by decide),
   composer_fallback_policy.2.2.1 "x" (mkRat 1 2) (mkRat 7 10) (by decide)⟩

/-! ### C10 — the two evaluators agree on the shared operators -/

/-- C10: for every transaction and condition whose operator is one of the
seven operators both files implement, the engine's evaluator
(`pages/data_loader.py`) and the editor's evaluator
(`pages/rule_management.py`) return the same boolean. -/
theorem evaluators_agree_on_shared_operators (reSearch : ReSearch)
    (t : Transaction) (c : Condition)
    (h : c.operator ∈ (["contains", "equals", "starts_with", "ends_with",
      "greater_than", "less_than", "regex"] : List String)) :
    DataLoaderPage.evaluate_condition reSearch t c =
      RuleManagementPage.evaluate_condition reSearch t c := by
  cases hv : lookupField t c.field with
  | none =>
    simp [DataLoaderPage.evaluate_condition,
      RuleManagementPage.evaluate_condition, hv]
  | some v =>
    simp only [List.mem_cons, List.mem_nil_iff, or_false] at h
    rcases h with h | h | h | h | h | h | h <;>
      simp [DataLoaderPage.evaluate_condition,
        RuleManagementPage.evaluate_condition, hv, h]

/-- Witness for C10 at a concrete input. -/
theorem evaluators_agree_on_shared_operators_witness :
    DataLoaderPage.evaluate_condition (fun _ _ _ => none)
      [("Description", .str "NETFLIX.COM")]
      ⟨"Description", "contains", .str "netflix", false⟩ =
    RuleManagementPage.evaluate_condition (fun _ _ _ => none)
      [("Description", .str "NETFLIX.COM")]
      ⟨"Description", "contains", .str "netflix", false⟩ :=
  evaluators_agree_on_shared_operators (fun _ _ _ => none)
    [("Description", .str "NETFLIX.COM")]
    ⟨"Description", "contains", .str "netflix", false⟩ (by decide)

/-! ### C2 — the engine's condition evaluator never raises -/

/-- C2: the engine's condition evaluator is a total boolean function, and it
returns `false` when the referenced field is absent, when the field's value
is null/NaN, when the operator is unrecognized, when the regex pattern fails
to compile, and when a numeric operator's operand fails float conversion. -/
theorem engine_evaluator_total_safe :
    (∀ (reSearch : ReSearch) (t : Transaction) (c : Condition),
      lookupField t c.field = none →
      DataLoaderPage.evaluate_condition reSearch t c = false) ∧
    (∀ (reSearch : ReSearch) (t : Transaction) (c : Condition) (v : Scalar),
      lookupField t c.field = some v → isNa v = true →
      DataLoaderPage.evaluate_condition reSearch t c = false) ∧
    (∀ (reSearch : ReSearch) (t : Transaction) (c : Condition),
      c.operator ∉ (["contains", "equals", "starts_with", "ends_with",
        "greater_than", "less_than", "regex"] : List String) →
      DataLoaderPage.evaluate_condition reSearch t c = false) ∧
    (∀ (reSearch : ReSearch) (t : Transaction) (c : Condition),
      c.operator = "regex" → (∀ p s b, reSearch p s b = none) →
      DataLoaderPage.evaluate_condition reSearch t c = false) ∧
    (∀ (reSearch : ReSearch) (t : Transaction) (c : Condition) (v : Scalar),
      c.operator = "greater_than" ∨ c.operator = "less_than" →
      lookupField t c.field = some v →
      pyFloatScalar v = none ∨ pyFloatVal c.value = none →
      DataLoaderPage.evaluate_condition reSearch t c = false) := by
  refine ⟨?_, ?_, ?_, ?_, ?_⟩
  · intro re t c h
    simp [DataLoaderPage.evaluate_condition, h]
  · intro re t c v hv hna
    simp [DataLoaderPage.evaluate_condition, hv, hna]
  · intro re t c h
    simp only [List.mem_cons, List.mem_nil_iff, or_false, not_or] at h
    obtain ⟨h1, h2, h3, h4, h5, h6, h7⟩ := h
    cases hv : lookupField t c.field with
    | none => simp [DataLoaderPage.evaluate_condition, hv]
    | some v =>
      cases hna : isNa v <;>
        simp [DataLoaderPage.evaluate_condition, hv, hna,
          h1, h2, h3, h4, h5, h6, h7]
  · intro re t c hop hre
    cases hv : lookupField t c.field with
    | none => simp [DataLoaderPage.evaluate_condition, hv]
    | some v =>
      cases hna : isNa v <;>
        simp [DataLoaderPage.evaluate_condition, hv, hna, hop, hre]
  · intro re t c v hop hv hfl
    cases hna : isNa v
    · rcases hop with hop | hop <;> rcases hfl with hfl | hfl <;>
        · simp only [DataLoaderPage.evaluate_condition, hv, hna, hop, hfl]
          simp [hfl]
    · simp [DataLoaderPage.evaluate_condition, hv, hna]

/-- Witness for C2 at concrete inputs. -/
theorem engine_evaluator_total_safe_witness :
    DataLoaderPage.evaluate_condition (fun _ _ _ => none)
      [("Amount", .str "12")] ⟨"Missing", "equals", .str "x", false⟩ = false ∧
    DataLoaderPage.evaluate_condition (fun _ _ _ => none)
      [("Amount", Scalar.null)] ⟨"Amount", "equals", .str "x", false⟩ = false ∧
    DataLoaderPage.evaluate_condition (fun _ _ _ => none)
      [("Amount", .str "12")] ⟨"Amount", "weird_op", .str "x", false⟩ = false ∧
    DataLoaderPage.evaluate_condition (fun _ _ _ => none)
      [("Amount", .str "12")] ⟨"Amount", "regex", .str "(", false⟩ = false ∧
    DataLoaderPage.evaluate_condition (fun _ _ _ => none)
      [("Amount", .str "abc")]
      ⟨"Amount", "greater_than", .num 5, false⟩ = false :=
  ⟨engine_evaluator_total_safe.1 (fun _ _ _ => none) _ _ (by decide),
   engine_evaluator_total_safe.2.1 (fun _ _ _ => none) _ _ Scalar.null
     (by decide) (by decide),
   engine_evaluator_total_safe.2.2.1 (fun _ _ _ => none) _ _ (by decide),
   engine_evaluator_total_safe.2.2.2.1 (fun _ _ _ => none) _ _ (by decide)
     (fun _ _ _ => rfl),
   engine_evaluator_total_safe.2.2.2.2 (fun _ _ _ => none) _ _ (.str "abc")
     (Or.inl (by decide)) (by decide) (Or.inl (by decide))⟩

/-! ### C3 — `in` and `between` semantics -/

/-- C3 (amended): the `in`/`between` semantics hold for the rule editor's
evaluator: `in` with a list is membership of the (optionally case-folded)
string forms, `in` with a non-list behaves as `equals`, and `between` with a
two-element `[low, high]` list is the inclusive range test after float
conversion.  The rule engine's evaluator does not implement `in` or
`between`: it returns `false` for every condition using them. -/
theorem editor_in_between_semantics :
    (∀ (reSearch : ReSearch) (t : Transaction) (c : Condition)
        (vs : PyValList) (v : Scalar),
      c.operator = "in" → c.value = .list vs →
      lookupField t c.field = some v → isNa v = false →
      ((c.case_sensitive = true →
        (RuleManagementPage.evaluate_condition reSearch t c = true ↔
          ∃ u ∈ vs.toList, pyValStr u = pyStr v)) ∧
       (c.case_sensitive = false →
        (RuleManagementPage.evaluate_condition reSearch t c = true ↔
          ∃ u ∈ vs.toList, pyLower (pyValStr u) = pyLower (pyStr v))))) ∧
    (∀ (reSearch : ReSearch) (t : Transaction) (c : Condition),
      c.operator = "in" → (∀ vs, c.value ≠ .list vs) →
      RuleManagementPage.evaluate_condition reSearch t c =
        RuleManagementPage.evaluate_condition reSearch t
          { c with operator := "equals" }) ∧
    (∀ (reSearch : ReSearch) (t : Transaction) (c : Condition)
        (lo hi : PyVal) (v : Scalar),
      c.operator = "between" →
      c.value = .list (.cons lo (.cons hi .nil)) →
      lookupField t c.field = some v → isNa v = false →
      (RuleManagementPage.evaluate_condition reSearch t c = true ↔
        ∃ a l h, pyFloatScalar v = some a ∧ pyFloatVal lo = some l ∧
          pyFloatVal hi = some h ∧ l ≤ a ∧ a ≤ h)) ∧
    (∀ (reSearch : ReSearch) (t : Transaction) (c : Condition),
      c.operator = "in" ∨ c.operator = "between" →
      DataLoaderPage.evaluate_condition reSearch t c = false) := by
  refine ⟨?_, ?_, ?_, ?_⟩
  · intro re t c vs v hop hval hv hna
    constructor
    · intro hcs
      simp [RuleManagementPage.evaluate_condition, hv, hna, hop, hval, hcs,
        List.mem_map]
    · intro hcs
      simp [RuleManagementPage.evaluate_condition, hv, hna, hop, hval, hcs,
        List.mem_map, pyLower_idem]
  · intro re t c hop hnl
    cases hv : lookupField t c.field with
    | none => simp [RuleManagementPage.evaluate_condition, hv]
    | some v =>
      cases hna : isNa v
      · cases hval : c.value with
        | str s =>
          simp [RuleManagementPage.evaluate_condition, hv, hna, hop, hval]
        | num q =>
          simp [RuleManagementPage.evaluate_condition, hv, hna, hop, hval]
        | null =>
          simp [RuleManagementPage.evaluate_condition, hv, hna, hop, hval]
        | list vs => exact absurd hval (hnl vs)
      · simp [RuleManagementPage.evaluate_condition, hv, hna]
  · intro re t c lo hi v hop hval hv hna
    simp only [RuleManagementPage.evaluate_condition, hv, hna, hop, hval]
    cases hfv : pyFloatScalar v with
    | none => simp [hfv]
    | some a =>
      cases hlo : pyFloatVal lo with
      | none => simp [hfv, hlo]
      | some l =>
        cases hhi : pyFloatVal hi with
        | none => simp [hfv, hlo, hhi]
        | some h => simp [hfv, hlo, hhi, and_assoc]
  · intro re t c hop
    cases hv : lookupField t c.field with
    | none => simp [DataLoaderPage.evaluate_condition, hv]
    | some v =>
      cases hna : isNa v <;> rcases hop with hop | hop <;>
        simp [DataLoaderPage.evaluate_condition, hv, hna, hop]


/-- Witness for C3 (amended) at concrete inputs. -/
theorem editor_in_between_semantics_witness :
    (RuleManagementPage.evaluate_condition (fun _ _ _ => none)
        [("f", .str "B")]
        ⟨"f", "in", .list (PyValList.ofList [.str "a", .str "b"]), false⟩ =
          true ↔
      ∃ u ∈ (PyValList.ofList [.str "a", .str "b"]).toList,
        pyLower (pyValStr u) = pyLower (pyStr (.str "B"))) ∧
    DataLoaderPage.evaluate_condition (fun _ _ _ => none)
      [("f", .num 5)]
      ⟨"f", "between", .list (PyValList.ofList [.num 1, .num 10]), false⟩ =
      false :=
  ⟨(editor_in_between_semantics.1 (fun _ _ _ => none) [("f", .str "B")]
      ⟨"f", "in", .list (PyValList.ofList [.str "a", .str "b"]), false⟩
      (PyValList.ofList [.str "a", .str "b"]) (.str "B")
      rfl rfl (by decide) (by decide)).2 rfl,
   editor_in_between_semantics.2.2.2 (fun _ _ _ => none) [("f", .num 5)]
      ⟨"f", "between", .list (PyValList.ofList [.num 1, .num 10]), false⟩
      (Or.inr rfl)⟩

/-- C3 counterexample: the claim also asserts these semantics for the rule
engine's evaluator, but that evaluator returns `false` on an `in` condition
whose (case-folded) field string equals a list entry — the editor's
evaluator returns `true` on the same input. -/
theorem engine_evaluator_in_counterexample :
    DataLoaderPage.evaluate_condition (fun _ _ _ => none)
      [("f", .str "x")]
      ⟨"f", "in", .list (PyValList.ofList [.str "x"]), false⟩ = false ∧
    RuleManagementPage.evaluate_condition (fun _ _ _ => none)
      [("f", .str "x")]
      ⟨"f", "in", .list (PyValList.ofList [.str "x"]), false⟩ = true ∧
    pyLower (pyValStr (.str "x")) = pyLower (pyStr (.str "x")) := by
  refine ⟨by decide, by decide, by decide⟩

/-! ### Engine helper lemmas -/

namespace DataLoaderPage

theorem lookupField_setField_self (row : Transaction) (k : String) (v : Scalar) :
    lookupField (setField row k v) k = some v := by
  induction row with
  | nil => simp [setField, lookupField]
  | cons p rest ih =>
    by_cases h : p.1 = k
    · simp [setField, h, lookupField]
    · simp only [setField, h, if_false]
      simpa [lookupField, List.find?, h] using ih

theorem lookupField_setField_ne (row : Transaction) (k k2 : String)
    (v : Scalar) (h : k2 ≠ k) :
    lookupField (setField row k v) k2 = lookupField row k2 := by
  induction row with
  | nil => simp [setField, lookupField, List.find?, Ne.symm h]
  | cons p rest ih =>
    by_cases hp : p.1 = k
    · have hk2 : ¬ p.1 = k2 := by rw [hp]; exact Ne.symm h
      rw [show setField (p :: rest) k v = (k, v) :: rest by
        simp [setField, hp]]
      unfold lookupField
      rw [List.find?_cons_of_neg _ (by simpa using Ne.symm h),
        List.find?_cons_of_neg _ (by simpa using hk2)]
    · rw [show setField (p :: rest) k v = p :: setField rest k v by
        simp [setField, hp]]
      by_cases hq : p.1 = k2
      · unfold lookupField
        rw [List.find?_cons_of_pos _ (by simpa using hq),
          List.find?_cons_of_pos _ (by simpa using hq)]
      · unfold lookupField
        rw [List.find?_cons_of_neg _ (by simpa using hq),
          List.find?_cons_of_neg _ (by simpa using hq)]
        exact ih

/-- Assigning the same column twice keeps only the second write. -/
theorem setField_setField (row : Transaction) (k : String) (v w : Scalar) :
    setField (setField row k v) k w = setField row k w := by
  induction row with
  | nil => simp [setField]
  | cons p rest ih =>
    by_cases h : p.1 = k
    · simp [setField, h]
    · simp [setField, h, ih]

theorem lookupField_reset_category (row : Transaction) :
    lookupField (resetCategories row) "Category" = some (.str "") := by
  unfold resetCategories
  rw [lookupField_setField_ne _ _ _ _ (by decide),
    lookupField_setField_ne _ _ _ _ (by decide),
    lookupField_setField_self]

/-- The engine's skip check always fails: it reads the `Category` cell the
engine itself just reset to `''`. -/
theorem skipCheck_reset (row : Transaction) :
    skipCheck (resetCategories row) = false := by
  simp [skipCheck, lookupField_reset_category, isNa, pyStr, trimChars]

/-- The per-row step, with the dead skip check eliminated: the written row
and the winner are read off `find?` over the sorted active rules. -/
theorem processTransaction_eq (reSearch : ReSearch) (s : List Rule)
    (row : Transaction) :
    processTransaction reSearch s row =
      (match s.find? (matchesRule reSearch (resetCategories row)) with
        | some w => assignRule (resetCategories row) w
        | none => resetCategories row,
       s.find? (matchesRule reSearch (resetCategories row))) := by
  unfold processTransaction
  simp only [skipCheck_reset, Bool.false_eq_true, if_false]
  cases s.find? (matchesRule reSearch (resetCategories row)) <;> simp

/-- The three cells a winning rule writes. -/
theorem lookupField_assignRule (row : Transaction) (r : Rule) :
    lookupField (assignRule row r) "Category" =
      some (.str (r.category.getD "")) ∧
    lookupField (assignRule row r) "Subcategory" =
      some (.str (r.subcategory.getD "")) ∧
    lookupField (assignRule row r) "Categorization_Source" =
      some (.str ("Rule: " ++ ruleName r)) := by
  unfold assignRule
  refine ⟨?_, ?_, ?_⟩
  · rw [lookupField_setField_ne _ _ _ _ (by decide),
      lookupField_setField_ne _ _ _ _ (by decide),
      lookupField_setField_self]
  · rw [lookupField_setField_ne _ _ _ _ (by decide),
      lookupField_setField_self]
  · rw [lookupField_setField_self]

theorem insertByPriority_perm (r : Rule) (l : List Rule) :
    (insertByPriority r l).Perm (r :: l) := by
  induction l with
  | nil => simp [insertByPriority]
  | cons x xs ih =>
    by_cases h : priorityKey x ≤ priorityKey r
    · simp [insertByPriority, h]
    · simp only [insertByPriority, h, if_false]
      exact (List.Perm.cons x ih).trans (List.Perm.swap r x xs)

theorem mem_insertByPriority {x r : Rule} {l : List Rule} :
    x ∈ insertByPriority r l ↔ x = r ∨ x ∈ l := by
  rw [(insertByPriority_perm r l).mem_iff]
  simp

theorem insertByPriority_pairwise {r : Rule} {l : List Rule}
    (h : l.Pairwise (fun a b => priorityKey b ≤ priorityKey a)) :
    (insertByPriority r l).Pairwise
      (fun a b => priorityKey b ≤ priorityKey a) := by
  induction l with
  | nil => simp [insertByPriority]
  | cons x xs ih =>
    rcases List.pairwise_cons.mp h with ⟨hx, hxs⟩
    by_cases hle : priorityKey x ≤ priorityKey r
    · simp only [insertByPriority, hle, if_true]
      refine List.pairwise_cons.mpr ⟨?_, h⟩
      intro y hy
      rcases List.mem_cons.mp hy with hy | hy
      · exact hy ▸ hle
      · exact le_trans (hx y hy) hle
    · simp only [insertByPriority, hle, if_false]
      refine List.pairwise_cons.mpr ⟨?_, ih hxs⟩
      intro y hy
      rcases mem_insertByPriority.mp hy with hy | hy
      · exact hy ▸ le_of_lt (lt_of_not_le hle)
      · exact hx y hy

theorem insertByPriority_filter_pos (r : Rule) (l : List Rule) :
    (insertByPriority r l).filter
        (fun x => decide (priorityKey x = priorityKey r)) =
      r :: l.filter (fun x => decide (priorityKey x = priorityKey r)) := by
  induction l with
  | nil => simp [insertByPriority]
  | cons x xs ih =>
    by_cases hle : priorityKey x ≤ priorityKey r
    · simp [insertByPriority, hle, List.filter]
    · have hne : ¬ priorityKey x = priorityKey r := by
        intro he; exact hle (le_of_eq he)
      simp [insertByPriority, hle, List.filter, hne, ih]

theorem insertByPriority_filter_neg (r : Rule) (l : List Rule) (p : ℤ)
    (hp : priorityKey r ≠ p) :
    (insertByPriority r l).filter (fun x => decide (priorityKey x = p)) =
      l.filter (fun x => decide (priorityKey x = p)) := by
  induction l with
  | nil => simp [insertByPriority, hp]
  | cons x xs ih =>
    by_cases hle : priorityKey x ≤ priorityKey r
    · simp [insertByPriority, hle, List.filter, hp]
    · simp only [insertByPriority, hle, if_false]
      by_cases hx : priorityKey x = p
      · simp [List.filter, hx, ih]
      · simp [List.filter, hx, ih]

theorem sortByPriorityDesc_perm (l : List Rule) :
    (sortByPriorityDesc l).Perm l := by
  induction l with
  | nil => simp [sortByPriorityDesc]
  | cons r rs ih =>
    exact (insertByPriority_perm r (sortByPriorityDesc rs)).trans
      (List.Perm.cons r ih)

theorem sortByPriorityDesc_pairwise (l : List Rule) :
    (sortByPriorityDesc l).Pairwise
      (fun a b => priorityKey b ≤ priorityKey a) := by
  induction l with
  | nil => simp [sortByPriorityDesc]
  | cons r rs ih => exact insertByPriority_pairwise ih

theorem sortByPriorityDesc_stable (l : List Rule) (p : ℤ) :
    (sortByPriorityDesc l).filter (fun x => decide (priorityKey x = p)) =
      l.filter (fun x => decide (priorityKey x = p)) := by
  induction l with
  | nil => rfl
  | cons r rs ih =>
    by_cases hr : priorityKey r = p
    · subst hr
      rw [sortByPriorityDesc, insertByPriority_filter_pos, ih]
      simp [List.filter]
    · rw [sortByPriorityDesc, insertByPriority_filter_neg _ _ _ hr, ih]
      simp [List.filter, hr]

theorem countOf_bumpCount (k k2 : String) (acc : List (String × Nat)) :
    countOf k (bumpCount k2 acc) =
      countOf k acc + (if k2 = k then 1 else 0) := by
  induction acc with
  | nil =>
    by_cases h : k2 = k
    · subst h; simp [bumpCount, countOf, List.find?]
    · simp [bumpCount, countOf, List.find?, h, Ne.symm h]
  | cons p rest ih =>
    by_cases hp : p.1 = k2
    · rw [show bumpCount k2 (p :: rest) = (p.1, p.2 + 1) :: rest by
        simp [bumpCount, hp]]
      by_cases hk : p.1 = k
      · have hkk : k2 = k := hp.symm.trans hk
        simp [countOf, List.find?, hk, hkk]
      · have hkk : ¬ k2 = k := fun he => hk (hp.trans he)
        simp [countOf, List.find?, hk, hkk]
    · rw [show bumpCount k2 (p :: rest) = p :: bumpCount k2 rest by
        simp [bumpCount, hp]]
      by_cases hk : p.1 = k
      · have hkk : ¬ k2 = k := fun he => hp (hk.trans he.symm)
        simp [countOf, List.find?, hk, hkk]
      · simpa [countOf, List.find?, hk] using ih

/-- Generic decomposition of a successful `find?`. -/
theorem find?_decomp {α : Type} (p : α → Bool) :
    ∀ (l : List α) (x : α), l.find? p = some x →
      ∃ l₁ l₂, l = l₁ ++ x :: l₂ ∧ p x = true ∧ ∀ y ∈ l₁, p y = false
  | [], x, h => by simp [List.find?] at h
  | a :: l, x, h => by
    by_cases ha : p a
    · rw [List.find?_cons_of_pos _ ha] at h
      obtain rfl := Option.some_injective _ h
      exact ⟨[], l, rfl, ha, by simp⟩
    · rw [List.find?_cons_of_neg _ ha] at h
      obtain ⟨l₁, l₂, rfl, hx, hl₁⟩ := find?_decomp p l x h
      refine ⟨a :: l₁, l₂, rfl, hx, ?_⟩
      intro y hy
      rcases List.mem_cons.mp hy with hy | hy
      · exact hy ▸ (by simpa using ha)
      · exact hl₁ y hy

/-- Unfold the engine's fold into the row map and the counter fold. -/
theorem apply_rules_loop (reSearch : ReSearch) (s : List Rule) :
    ∀ (df : List Transaction) (a1 : List Transaction)
      (a2 : List (String × Nat)),
      df.foldl
        (fun acc row =>
          let p := processTransaction reSearch s row
          match p.2 with
          | some r => (acc.1 ++ [p.1], bumpCount (ruleId r) acc.2)
          | none => (acc.1 ++ [p.1], acc.2)) (a1, a2) =
      (a1 ++ df.map (fun row => (processTransaction reSearch s row).1),
       df.foldl
        (fun acc row =>
          match (processTransaction reSearch s row).2 with
          | some r => bumpCount (ruleId r) acc
          | none => acc) a2)
  | [], a1, a2 => by simp
  | row :: rest, a1, a2 => by
    cases hw : (processTransaction reSearch s row).2 with
    | some r =>
      simp only [List.foldl_cons, hw, List.map_cons]
      rw [apply_rules_loop reSearch s rest]
      simp
    | none =>
      simp only [List.foldl_cons, hw, List.map_cons]
      rw [apply_rules_loop reSearch s rest]
      simp

/-- The engine, as row map plus counter fold. -/
theorem apply_rules_unfold (reSearch : ReSearch) (rules : List Rule)
    (df : List Transaction) :
    apply_rules_to_transactions reSearch rules df =
      (df.map (fun row => (processTransaction reSearch
        (sortByPriorityDesc (rules.filter activeFlag)) row).1),
       df.foldl
        (fun acc row =>
          match (processTransaction reSearch
            (sortByPriorityDesc (rules.filter activeFlag)) row).2 with
          | some r => bumpCount (ruleId r) acc
          | none => acc) []) := by
  unfold apply_rules_to_transactions
  rw [apply_rules_loop]
  simp

/-- Counter fold versus per-row winner count. -/
theorem countOf_counts_fold (reSearch : ReSearch) (s : List Rule)
    (k : String) :
    ∀ (df : List Transaction) (a2 : List (String × Nat)),
      countOf k (df.foldl
        (fun acc row =>
          match (processTransaction reSearch s row).2 with
          | some r => bumpCount (ruleId r) acc
          | none => acc) a2) =
      countOf k a2 + df.countP (fun row =>
        match (processTransaction reSearch s row).2 with
        | some r => decide (ruleId r = k)
        | none => false)
  | [], a2 => by simp
  | row :: rest, a2 => by
    cases hw : (processTransaction reSearch s row).2 with
    | some r =>
      simp only [List.foldl_cons, hw, List.countP_cons]
      rw [countOf_counts_fold reSearch s k rest, countOf_bumpCount]
      by_cases hk : ruleId r = k <;> simp [hk] <;> omega
    | none =>
      simp only [List.foldl_cons, hw, List.countP_cons]
      rw [countOf_counts_fold reSearch s k rest]
      simp

end DataLoaderPage

/-! ### C1 — first-match-wins rule application -/

/-- C1 counterexample: the engine writes the provenance tag with the prefix
`"Rule: "` (capital R, colon and space), not `"rule:"` as the claim states. -/
theorem apply_rules_source_prefix_counterexample :
    lookupField
      ((DataLoaderPage.apply_rules_to_transactions (fun _ _ _ => none)
        [⟨some "r1", some "Groceries", some 90, some true, some "Food",
          some "G",
          some (.leaf ⟨"Description", "contains", .str "albert", false⟩)⟩]
        [[("Description", .str "ALBERT HEIJN")]]).1.headD [])
      "Categorization_Source" = some (.str "Rule: Groceries") ∧
    "Rule: Groceries" ≠ "rule:" ++ "Groceries" :=
  ⟨by decide, by decide⟩

/-- C1 (amended): the pass considers exactly the rules with `active == true`
(missing `active` defaulting to true), in descending priority with ties in
original order (stable sort); each transaction receives category,
subcategory and `categorization_source = "Rule: " + rule.name` from the
first rule in that order whose condition tree evaluates true — every earlier
rule in the order evaluates false on it — and the counter of exactly that
rule's id is incremented, at most one rule winning per transaction. -/
theorem apply_rules_first_match_wins (reSearch : ReSearch) (rules : List Rule)
    (df : List Transaction) :
    (DataLoaderPage.sortByPriorityDesc
        (rules.filter DataLoaderPage.activeFlag)).Perm
      (rules.filter DataLoaderPage.activeFlag) ∧
    (DataLoaderPage.sortByPriorityDesc
        (rules.filter DataLoaderPage.activeFlag)).Pairwise
      (fun a b =>
        DataLoaderPage.priorityKey b ≤ DataLoaderPage.priorityKey a) ∧
    (∀ p : ℤ,
      (DataLoaderPage.sortByPriorityDesc
          (rules.filter DataLoaderPage.activeFlag)).filter
        (fun r => decide (DataLoaderPage.priorityKey r = p)) =
      (rules.filter DataLoaderPage.activeFlag).filter
        (fun r => decide (DataLoaderPage.priorityKey r = p))) ∧
    (DataLoaderPage.apply_rules_to_transactions reSearch rules df).1 =
      df.map (fun row =>
        match (DataLoaderPage.sortByPriorityDesc
            (rules.filter DataLoaderPage.activeFlag)).find?
          (DataLoaderPage.matchesRule reSearch
            (DataLoaderPage.resetCategories row)) with
        | some w =>
          DataLoaderPage.assignRule (DataLoaderPage.resetCategories row) w
        | none => DataLoaderPage.resetCategories row) ∧
    (∀ (row0 : Transaction) (w : Rule),
      (DataLoaderPage.sortByPriorityDesc
          (rules.filter DataLoaderPage.activeFlag)).find?
        (DataLoaderPage.matchesRule reSearch row0) = some w →
      DataLoaderPage.matchesRule reSearch row0 w = true ∧
      ∃ l₁ l₂,
        DataLoaderPage.sortByPriorityDesc
          (rules.filter DataLoaderPage.activeFlag) = l₁ ++ w :: l₂ ∧
        ∀ r ∈ l₁, DataLoaderPage.matchesRule reSearch row0 r = false) ∧
    (∀ (row : Transaction) (r : Rule),
      lookupField (DataLoaderPage.assignRule row r) "Category" =
        some (.str (r.category.getD "")) ∧
      lookupField (DataLoaderPage.assignRule row r) "Subcategory" =
        some (.str (r.subcategory.getD "")) ∧
      lookupField (DataLoaderPage.assignRule row r) "Categorization_Source" =
        some (.str ("Rule: " ++ DataLoaderPage.ruleName r))) ∧
    (∀ k : String,
      DataLoaderPage.countOf k
        (DataLoaderPage.apply_rules_to_transactions reSearch rules df).2 =
      df.countP (fun row =>
        match (DataLoaderPage.sortByPriorityDesc
            (rules.filter DataLoaderPage.activeFlag)).find?
          (DataLoaderPage.matchesRule reSearch
            (DataLoaderPage.resetCategories row)) with
        | some w => decide (DataLoaderPage.ruleId w = k)
        | none => false)) := by
  refine ⟨DataLoaderPage.sortByPriorityDesc_perm _,
    DataLoaderPage.sortByPriorityDesc_pairwise _,
    fun p => DataLoaderPage.sortByPriorityDesc_stable _ p, ?_, ?_,
    fun row r => DataLoaderPage.lookupField_assignRule row r, ?_⟩
  · rw [DataLoaderPage.apply_rules_unfold]
    simp only [DataLoaderPage.processTransaction_eq]
  · intro row0 w h
    refine ⟨List.find?_some h, ?_⟩
    obtain ⟨l₁, l₂, heq, _, hfail⟩ :=
      DataLoaderPage.find?_decomp _ _ _ h
    exact ⟨l₁, l₂, heq, hfail⟩
  · intro k
    rw [DataLoaderPage.apply_rules_unfold]
    rw [DataLoaderPage.countOf_counts_fold]
    simp only [DataLoaderPage.processTransaction_eq]
    simp [DataLoaderPage.countOf]

/-- Witness for C1 (amended) at a concrete input. -/
theorem apply_rules_first_match_wins_witness :
    DataLoaderPage.matchesRule (fun _ _ _ => none)
      [("Description", .str "ALBERT HEIJN")]
      ⟨some "r1", some "Groceries", some 90, some true, some "Food", some "G",
        some (.leaf ⟨"Description", "contains", .str "albert", false⟩)⟩ =
      true ∧
    ∃ l₁ l₂,
      DataLoaderPage.sortByPriorityDesc
        (([⟨some "r1", some "Groceries", some 90, some true, some "Food",
          some "G",
          some (.leaf ⟨"Description", "contains", .str "albert", false⟩)⟩] :
            List Rule).filter DataLoaderPage.activeFlag) = l₁ ++
        (⟨some "r1", some "Groceries", some 90, some true, some "Food",
          some "G",
          some (.leaf ⟨"Description", "contains", .str "albert",
            false⟩)⟩ : Rule) :: l₂ ∧
      ∀ r ∈ l₁, DataLoaderPage.matchesRule (fun _ _ _ => none)
        [("Description", .str "ALBERT HEIJN")] r = false :=
  (apply_rules_first_match_wins (fun _ _ _ => none)
    [⟨some "r1", some "Groceries", some 90, some true, some "Food", some "G",
      some (.leaf ⟨"Description", "contains", .str "albert", false⟩)⟩]
    []).2.2.2.2.1 [("Description", .str "ALBERT HEIJN")]
    ⟨some "r1", some "Groceries", some 90, some true, some "Food", some "G",
      some (.leaf ⟨"Description", "contains", .str "albert", false⟩)⟩
    (by rfl)

/-! ### C7 — prior categorizations are not preserved -/

/-- C7 counterexample: a transaction entering the pass with the non-empty
category `"Manual"` leaves it with category `''` — the pass resets the three
columns before looking at them, so prior categorizations are clobbered. -/
theorem apply_rules_preservation_counterexample :
    lookupField
      ((DataLoaderPage.apply_rules_to_transactions (fun _ _ _ => none) []
        [[("Category", .str "Manual"), ("Description", .str "x")]]).1.headD
        []) "Category" = some (.str "") ∧
    Scalar.str "" ≠ Scalar.str "Manual" :=
  ⟨by decide, by decide⟩

/-- C7 (amended): the pass resets `Category`, `Subcategory` and
`Categorization_Source` to `''` for every transaction before iterating, so
the skip check (which reads the just-reset cell) never fires and the pass's
output is independent of whatever category the input frame carried. -/
theorem apply_rules_ignores_prior_category (reSearch : ReSearch)
    (rules : List Rule) :
    (∀ row : Transaction,
      DataLoaderPage.skipCheck (DataLoaderPage.resetCategories row) =
        false) ∧
    (∀ (df : List Transaction) (v w : Scalar),
      DataLoaderPage.apply_rules_to_transactions reSearch rules
        (df.map (fun row => DataLoaderPage.setField row "Category" v)) =
      DataLoaderPage.apply_rules_to_transactions reSearch rules
        (df.map (fun row => DataLoaderPage.setField row "Category" w))) := by
  have hcollapse : ∀ (row : Transaction) (v : Scalar),
      DataLoaderPage.resetCategories (DataLoaderPage.setField row "Category"
        v) = DataLoaderPage.resetCategories row := by
    intro row v
    unfold DataLoaderPage.resetCategories
    rw [DataLoaderPage.setField_setField]
  refine ⟨DataLoaderPage.skipCheck_reset, ?_⟩
  intro df v w
  rw [DataLoaderPage.apply_rules_unfold, DataLoaderPage.apply_rules_unfold]
  have hrow : ∀ (u : Scalar) (row : Transaction),
      DataLoaderPage.processTransaction reSearch
        (DataLoaderPage.sortByPriorityDesc
          (rules.filter DataLoaderPage.activeFlag))
        (DataLoaderPage.setField row "Category" u) =
      DataLoaderPage.processTransaction reSearch
        (DataLoaderPage.sortByPriorityDesc
          (rules.filter DataLoaderPage.activeFlag)) row := by
    intro u row
    rw [DataLoaderPage.processTransaction_eq,
      DataLoaderPage.processTransaction_eq, hcollapse]
  congr 1
  · rw [List.map_map, List.map_map]
    apply List.map_congr_left
    intro row _
    simp only [Function.comp_apply, hrow]
  · rw [List.foldl_map, List.foldl_map]
    have hstep : (fun (acc : List (String × Nat)) (row : Transaction) =>
        match (DataLoaderPage.processTransaction reSearch
          (DataLoaderPage.sortByPriorityDesc
            (rules.filter DataLoaderPage.activeFlag))
          (DataLoaderPage.setField row "Category" v)).2 with
        | some r => DataLoaderPage.bumpCount (DataLoaderPage.ruleId r) acc
        | none => acc) =
        (fun (acc : List (String × Nat)) (row : Transaction) =>
        match (DataLoaderPage.processTransaction reSearch
          (DataLoaderPage.sortByPriorityDesc
            (rules.filter DataLoaderPage.activeFlag))
          (DataLoaderPage.setField row "Category" w)).2 with
        | some r => DataLoaderPage.bumpCount (DataLoaderPage.ruleId r) acc
        | none => acc) := by
      funext acc row
      rw [hrow, hrow]
    rw [hstep]

/-! ### C9 — manual dataset upsert and manual precedence -/

/-- C9: a save keeps at most one row per transaction id (the row for the
saved id is exactly the new record, rows for other ids are untouched, and
id-uniqueness of the dataset is preserved), and the merge appends rule rows
only for ids absent from the manual dataset, keeping every manual row. -/
theorem manual_precedence_upsert :
    (∀ (existing : List TransactionMatcher.CatRecord)
        (rec : TransactionMatcher.CatRecord),
      (TransactionMatcher.save_categorized_transaction existing rec).countP
        (fun r => decide (r.transaction_id = rec.transaction_id)) = 1 ∧
      (∀ r ∈ TransactionMatcher.save_categorized_transaction existing rec,
        r.transaction_id = rec.transaction_id → r = rec) ∧
      (∀ k : String, k ≠ rec.transaction_id →
        (TransactionMatcher.save_categorized_transaction existing
          rec).filter (fun r => decide (r.transaction_id = k)) =
        existing.filter (fun r => decide (r.transaction_id = k))) ∧
      ((existing.map (fun r => r.transaction_id)).Nodup →
        ((TransactionMatcher.save_categorized_transaction existing
          rec).map (fun r => r.transaction_id)).Nodup)) ∧
    (∀ (manual : List TransactionMatcher.CatRecord)
        (ruleRows : List TransactionMatcher.RuleRow) (now : String),
      manual ≠ [] →
      ∃ added, TransactionMatcher.mergeCategorized manual ruleRows now =
        manual ++ added ∧
        ∀ r ∈ added,
          r.transaction_id ∉ manual.map (fun m => m.transaction_id)) := by
  constructor
  · intro existing rec
    refine ⟨?_, ?_, ?_, ?_⟩
    · rw [TransactionMatcher.save_categorized_transaction,
        List.countP_append]
      have h0 : (existing.filter
          (fun r => r.transaction_id ≠ rec.transaction_id)).countP
          (fun r => decide (r.transaction_id = rec.transaction_id)) = 0 := by
        rw [List.countP_eq_zero]
        intro a ha
        have := (List.mem_filter.mp ha).2
        simpa using this
      simp [h0]
    · intro r hr hid
      rcases List.mem_append.mp hr with hr | hr
      · have := (List.mem_filter.mp hr).2
        simp [hid] at this
      · simpa using hr
    · intro k hk
      rw [TransactionMatcher.save_categorized_transaction,
        List.filter_append, List.filter_filter]
      have hrec : ((([rec] : List TransactionMatcher.CatRecord)).filter
          (fun r => decide (r.transaction_id = k))) = [] := by
        simp [List.filter, Ne.symm hk]
      rw [hrec, List.append_nil]
      apply List.filter_congr
      intro r _
      by_cases hr : r.transaction_id = k
      · simp [hr, Ne.symm hk, hk]
      · simp [hr]
    · intro hnd
      rw [TransactionMatcher.save_categorized_transaction, List.map_append]
      apply List.Nodup.append
      · exact hnd.sublist (List.Sublist.map _ (List.filter_sublist existing))
      · simp
      · intro x hx hx2
        simp only [List.map_cons, List.map_nil, List.mem_singleton] at hx2
        obtain ⟨r, hr, hrx⟩ := List.mem_map.mp hx
        have := (List.mem_filter.mp hr).2
        rw [hrx.symm] at hx2
        simp [hx2] at this
  · intro manual ruleRows now hne
    rw [TransactionMatcher.mergeCategorized]
    have : manual.isEmpty = false := by
      cases manual with
      | nil => exact absurd rfl hne
      | cons a l => rfl
    rw [this]
    simp only [Bool.false_eq_true, if_false]
    refine ⟨_, rfl, ?_⟩
    intro r hr
    obtain ⟨r0, hr0, hfmt⟩ := List.mem_map.mp hr
    have hr0m := (List.mem_filter.mp (List.mem_filter.mp hr0).1).2
    rw [← hfmt]
    simpa [TransactionMatcher.formatRuleRow] using hr0m

/-- Witness for C9 at concrete inputs. -/
theorem manual_precedence_upsert_witness :
    ∃ added,
      TransactionMatcher.mergeCategorized
        [⟨"t1", "Food", "G", "2024-01-01", "Manual"⟩]
        [⟨"t1", "Streaming", "", "Rule: media"⟩,
         ⟨"t2", "Transport", "", "Rule: ns"⟩] "2024-01-02" =
      [⟨"t1", "Food", "G", "2024-01-01", "Manual"⟩] ++ added ∧
      ∀ r ∈ added, r.transaction_id ∉
        ([⟨"t1", "Food", "G", "2024-01-01", "Manual"⟩] :
          List TransactionMatcher.CatRecord).map
          (fun m => m.transaction_id) :=
  manual_precedence_upsert.2
    [⟨"t1", "Food", "G", "2024-01-01", "Manual"⟩]
    [⟨"t1", "Streaming", "", "Rule: media"⟩,
     ⟨"t2", "Transport", "", "Rule: ns"⟩] "2024-01-02" (by decide)

/-! ### C8 — transaction-id generation -/

theorem decDigitsVal_from (l : List Char) : ∀ a : Nat,
    l.foldl (fun a c => 10 * a + digitVal c) a =
      a * 10 ^ l.length + decDigitsVal l := by
  induction l with
  | nil => intro a; simp [decDigitsVal]
  | cons c l ih =>
    intro a
    have hc : decDigitsVal (c :: l) = l.foldl
        (fun a c => 10 * a + digitVal c) (digitVal c) := by
      simp [decDigitsVal]
    rw [List.foldl_cons, ih (10 * a + digitVal c), hc, ih (digitVal c)]
    simp only [List.length_cons, pow_succ]
    ring

theorem decDigitsVal_append_singleton (l : List Char) (c : Char) :
    decDigitsVal (l ++ [c]) = 10 * decDigitsVal l + digitVal c := by
  unfold decDigitsVal
  rw [List.foldl_append]
  simp

theorem toDigitsCore_shift (b : Nat) : ∀ (f n : Nat) (acc : List Char),
    Nat.toDigitsCore b f n acc = Nat.toDigitsCore b f n [] ++ acc
  | 0, n, acc => by simp [Nat.toDigitsCore]
  | f + 1, n, acc => by
    by_cases h : n / b = 0
    · simp [Nat.toDigitsCore, h]
    · simp only [Nat.toDigitsCore, h, if_false]
      rw [toDigitsCore_shift b f (n / b) (Nat.digitChar (n % b) :: acc),
        toDigitsCore_shift b f (n / b) [Nat.digitChar (n % b)]]
      simp

theorem digitVal_digitChar (m : Nat) (h : m < 10) :
    digitVal (Nat.digitChar m) = m := by
  interval_cases m <;> rfl

theorem decVal_toDigitsCore : ∀ (f n : Nat), n < 10 ^ f →
    decDigitsVal (Nat.toDigitsCore 10 f n []) = n
  | 0, n, h => by
    simp only [Nat.toDigitsCore]
    simp only [pow_zero, Nat.lt_one_iff] at h
    simp [h, decDigitsVal]
  | f + 1, n, h => by
    by_cases hdiv : n / 10 = 0
    · have hn : n < 10 := by
        by_contra hge
        push_neg at hge
        have := Nat.div_pos hge (by norm_num)
        omega
      simp only [Nat.toDigitsCore, hdiv, if_true]
      have : decDigitsVal [Nat.digitChar (n % 10)] =
          digitVal (Nat.digitChar (n % 10)) := by simp [decDigitsVal]
      rw [this, digitVal_digitChar _ (Nat.mod_lt _ (by norm_num)),
        Nat.mod_eq_of_lt hn]
    · simp only [Nat.toDigitsCore, hdiv, if_false]
      rw [toDigitsCore_shift, decDigitsVal_append_singleton]
      have hlt : n / 10 < 10 ^ f := by
        rw [Nat.div_lt_iff_lt_mul (by norm_num : (0:Nat) < 10)]
        calc n < 10 ^ (f + 1) := h
          _ = 10 ^ f * 10 := by ring
      rw [decVal_toDigitsCore f (n / 10) hlt,
        digitVal_digitChar _ (Nat.mod_lt _ (by norm_num))]
      omega

/-- Decimal rendering of naturals is injective. -/
theorem natRepr_inj {m n : Nat} (h : Nat.repr m = Nat.repr n) : m = n := by
  have h' : Nat.toDigitsCore 10 (m + 1) m [] =
      Nat.toDigitsCore 10 (n + 1) n [] := List.asString_inj.mp h
  have hm : m < 10 ^ (m + 1) :=
    lt_of_lt_of_le (Nat.lt_pow_self (by norm_num) m)
      (Nat.pow_le_pow_right (by norm_num) (Nat.le_succ m))
  have hn : n < 10 ^ (n + 1) :=
    lt_of_lt_of_le (Nat.lt_pow_self (by norm_num) n)
      (Nat.pow_le_pow_right (by norm_num) (Nat.le_succ n))
  calc m = decDigitsVal (Nat.toDigitsCore 10 (m + 1) m []) :=
        (decVal_toDigitsCore (m + 1) m hm).symm
    _ = decDigitsVal (Nat.toDigitsCore 10 (n + 1) n []) := by rw [h']
    _ = n := decVal_toDigitsCore (n + 1) n hn

/-- With a 32-hex-character digest, every generated base id has length 12
(`"TXN_"` plus eight characters). -/
theorem generate_id_length (digest : String → String)
    (h32 : ∀ s, (digest s).length = 32) (row : Transaction) :
    (TransactionLoader.generate_transaction_id digest row).length = 12 := by
  unfold TransactionLoader.generate_transaction_id
  have hlen := h32 (TransactionLoader.joinBar
    (TransactionLoader.id_components row))
  simp only [String.length_append, List.length_asString, List.length_map,
    List.length_take]
  have h2 : (digest (TransactionLoader.joinBar
      (TransactionLoader.id_components row))).toList.length = 32 := hlen
  rw [h2]
  decide

/-- The cumcount at a later occurrence of the same id is strictly larger. -/
theorem countPrevOcc_lt (ids : List String) (i j : Nat) (hij : i < j)
    (hj : j < ids.length) (heq : ids.getD i "" = ids.getD j "") :
    TransactionLoader.countPrevOcc ids i <
      TransactionLoader.countPrevOcc ids j := by
  have hi : i < ids.length := lt_trans hij hj
  have hgi : ids.getD i "" = ids.get ⟨i, hi⟩ := by
    rw [List.getD_eq_getElem ids "" hi]; simp
  have h1 : (ids.take j).take (i + 1) = ids.take (i + 1) := by
    rw [List.take_take]
    congr 1
    omega
  have h2 : ids.take (i + 1) = ids.take i ++ [ids.get ⟨i, hi⟩] := by
    rw [List.take_succ]
    simp [List.getElem?_eq_getElem hi]
  have htake : ids.take j =
      (ids.take i ++ [ids.get ⟨i, hi⟩]) ++ (ids.take j).drop (i + 1) := by
    conv_lhs => rw [← List.take_append_drop (i + 1) (ids.take j)]
    rw [h1, h2]
  unfold TransactionLoader.countPrevOcc
  rw [htake, ← heq, hgi]
  simp only [List.filter_append, List.length_append]
  have hsing : ([ids.get ⟨i, hi⟩].filter
      (fun s => decide (s = ids.get ⟨i, hi⟩))).length = 1 := by simp
  omega

/-- Characters of a string, counted. -/
theorem strLenList (s : String) : s.toList.length = s.length := rfl

/-- Distinctness of the suffixed ids coming out of the duplicate pass, given
that every base id has the fixed length 12. -/
theorem addSuffixes_get_ne (ids : List String)
    (h12 : ∀ x ∈ ids, x.length = 12) (i j : Nat)
    (hi : i < (TransactionLoader.addSuffixes ids).length)
    (hj : j < (TransactionLoader.addSuffixes ids).length) (hij : i < j) :
    (TransactionLoader.addSuffixes ids).get ⟨i, hi⟩ ≠
      (TransactionLoader.addSuffixes ids).get ⟨j, hj⟩ := by
  have hilen : i < ids.length := by
    simpa [TransactionLoader.addSuffixes] using hi
  have hjlen : j < ids.length := by
    simpa [TransactionLoader.addSuffixes] using hj
  have hgeti : (TransactionLoader.addSuffixes ids).get ⟨i, hi⟩ =
      (if TransactionLoader.countPrevOcc ids i = 0 then
        ids.get ⟨i, hilen⟩
       else ids.get ⟨i, hilen⟩ ++ "_" ++
         Nat.repr (TransactionLoader.countPrevOcc ids i)) := by
    simp [TransactionLoader.addSuffixes, List.getElem_mapIdx]
  have hgetj : (TransactionLoader.addSuffixes ids).get ⟨j, hj⟩ =
      (if TransactionLoader.countPrevOcc ids j = 0 then
        ids.get ⟨j, hjlen⟩
       else ids.get ⟨j, hjlen⟩ ++ "_" ++
         Nat.repr (TransactionLoader.countPrevOcc ids j)) := by
    simp [TransactionLoader.addSuffixes, List.getElem_mapIdx]
  have hleni : (ids.get ⟨i, hilen⟩).length = 12 :=
    h12 _ (ids.get_mem i hilen)
  have hlenj : (ids.get ⟨j, hjlen⟩).length = 12 :=
    h12 _ (ids.get_mem j hjlen)
  have hmono : ids.get ⟨i, hilen⟩ = ids.get ⟨j, hjlen⟩ →
      TransactionLoader.countPrevOcc ids i <
        TransactionLoader.countPrevOcc ids j := by
    intro hb
    apply countPrevOcc_lt ids i j hij hjlen
    rw [List.getD_eq_getElem ids "" hilen,
      List.getD_eq_getElem ids "" hjlen]
    simpa using hb
  have hu : ("_" : String).length = 1 := rfl
  rw [hgeti, hgetj]
  by_cases hci : TransactionLoader.countPrevOcc ids i = 0 <;>
    by_cases hcj : TransactionLoader.countPrevOcc ids j = 0
  · simp only [hci, hcj, if_true]
    intro hb
    have := hmono hb
    omega
  · simp only [hci, hcj, if_true, if_false]
    intro hb
    have hlb := congrArg String.length hb
    simp only [String.length_append, hleni, hlenj, hu] at hlb
    omega
  · simp only [hci, hcj, if_true, if_false]
    intro hb
    have hlb := congrArg String.length hb
    simp only [String.length_append, hleni, hlenj, hu] at hlb
    omega
  · simp only [hci, hcj, if_false]
    intro hb
    have hlists : (ids.get ⟨i, hilen⟩).toList ++ ('_' ::
        (Nat.repr (TransactionLoader.countPrevOcc ids i)).toList) =
        (ids.get ⟨j, hjlen⟩).toList ++ ('_' ::
        (Nat.repr (TransactionLoader.countPrevOcc ids j)).toList) := by
      have hc := congrArg String.toList hb
      simpa using hc
    have hlen12 : (ids.get ⟨i, hilen⟩).toList.length =
        (ids.get ⟨j, hjlen⟩).toList.length := by
      rw [strLenList, strLenList, hleni, hlenj]
    obtain ⟨hbase, htail⟩ := List.append_inj hlists hlen12
    have hreq : Nat.repr (TransactionLoader.countPrevOcc ids i) =
        Nat.repr (TransactionLoader.countPrevOcc ids j) := by
      have htl : (Nat.repr (TransactionLoader.countPrevOcc
          ids i)).toList = (Nat.repr (TransactionLoader.countPrevOcc
          ids j)).toList := by simpa using htail
      exact String.toList_inj.mp htl
    have hceq := natRepr_inj hreq
    have hb' : ids.get ⟨i, hilen⟩ = ids.get ⟨j, hjlen⟩ :=
      String.toList_inj.mp hbase
    have := hmono hb'
    omega

/-- Pairwise distinctness of the final ids. -/
theorem assignIds_get_ne (digest : String → String)
    (h32 : ∀ s, (digest s).length = 32) (rows : List Transaction)
    (i j : Nat) (hi : i < (TransactionLoader.assignIds digest rows).length)
    (hj : j < (TransactionLoader.assignIds digest rows).length)
    (hne : i ≠ j) :
    (TransactionLoader.assignIds digest rows).get ⟨i, hi⟩ ≠
      (TransactionLoader.assignIds digest rows).get ⟨j, hj⟩ := by
  have h12 : ∀ x ∈ rows.map
      (TransactionLoader.generate_transaction_id digest), x.length = 12 := by
    intro x hx
    obtain ⟨row, _, hfx⟩ := List.mem_map.mp hx
    exact hfx ▸ generate_id_length digest h32 row
  have main : ∀ (i j : Nat)
      (hi : i < (TransactionLoader.assignIds digest rows).length)
      (hj : j < (TransactionLoader.assignIds digest rows).length),
      i < j →
      (TransactionLoader.assignIds digest rows).get ⟨i, hi⟩ ≠
        (TransactionLoader.assignIds digest rows).get ⟨j, hj⟩ := by
    intro i j hi hj hij
    by_cases hnd : (rows.map
        (TransactionLoader.generate_transaction_id digest)).Nodup
    · have ha : TransactionLoader.assignIds digest rows =
          rows.map (TransactionLoader.generate_transaction_id digest) := by
        simp [TransactionLoader.assignIds, hnd]
      revert hi hj
      rw [ha]
      intro hi hj
      intro he
      have heq : i = j := by
        have h2 := hnd.get_inj_iff.mp he
        simpa using h2
      omega
    · have ha : TransactionLoader.assignIds digest rows =
          TransactionLoader.addSuffixes (rows.map
            (TransactionLoader.generate_transaction_id digest)) := by
        simp [TransactionLoader.assignIds, hnd]
      revert hi hj
      rw [ha]
      intro hi hj
      exact addSuffixes_get_ne _ h12 i j hi hj hij
  rcases Nat.lt_or_ge i j with h | h
  · exact main i j hi hj h
  · have hj' : j < i := lt_of_le_of_ne h (Ne.symm hne)
    exact (main j i hj hi hj').symm

/-- C8: id assignment is deterministic — it depends only on the six
`id_components` of each row — and any two rows of a load receive different
final ids; in particular rows identical but for their sequence number do. -/
theorem transaction_ids_deterministic_and_distinct
    (digest : String → String) (h32 : ∀ s, (digest s).length = 32) :
    (∀ rows1 rows2 : List Transaction,
      rows1.map TransactionLoader.id_components =
        rows2.map TransactionLoader.id_components →
      TransactionLoader.assignIds digest rows1 =
        TransactionLoader.assignIds digest rows2) ∧
    (∀ (rows : List Transaction) (i j : Nat)
      (hi : i < (TransactionLoader.assignIds digest rows).length)
      (hj : j < (TransactionLoader.assignIds digest rows).length),
      i ≠ j →
      (TransactionLoader.assignIds digest rows).get ⟨i, hi⟩ ≠
        (TransactionLoader.assignIds digest rows).get ⟨j, hj⟩) := by
  constructor
  · intro rows1 rows2 hcomp
    have hmap : ∀ rows : List Transaction,
        rows.map (TransactionLoader.generate_transaction_id digest) =
          (rows.map TransactionLoader.id_components).map (fun comps =>
            "TXN_" ++ (((digest (TransactionLoader.joinBar comps)).toList.take
              8).map Char.toUpper).asString) := by
      intro rows
      rw [List.map_map]
      rfl
    unfold TransactionLoader.assignIds
    rw [hmap rows1, hmap rows2, hcomp]
  · exact assignIds_get_ne digest h32

/-- Witness for C8: a constant 32-character digest and two rows identical
except for their sequence numbers. -/
theorem transaction_ids_deterministic_and_distinct_witness :
    (∀ s : String,
      ((fun _ : String => "0123456789abcdef0123456789abcdef") s).length =
        32) ∧
    (TransactionLoader.assignIds
        (fun _ : String => "0123456789abcdef0123456789abcdef")
        [[("Date", .str "2024-01-05"), ("Amount", .str "-12.50"),
          ("Sequence_Number", .str "1")],
         [("Date", .str "2024-01-05"), ("Amount", .str "-12.50"),
          ("Sequence_Number", .str "2")]]).get ⟨0, by decide⟩ ≠
      (TransactionLoader.assignIds
        (fun _ : String => "0123456789abcdef0123456789abcdef")
        [[("Date", .str "2024-01-05"), ("Amount", .str "-12.50"),
          ("Sequence_Number", .str "1")],
         [("Date", .str "2024-01-05"), ("Amount", .str "-12.50"),
          ("Sequence_Number", .str "2")]]).get ⟨1, by decide⟩ :=
  ⟨fun _ => rfl,
   (transaction_ids_deterministic_and_distinct
      (fun _ : String => "0123456789abcdef0123456789abcdef")
      (fun _ => rfl)).2
    [[("Date", .str "2024-01-05"), ("Amount", .str "-12.50"),
      ("Sequence_Number", .str "1")],
     [("Date", .str "2024-01-05"), ("Amount", .str "-12.50"),
      ("Sequence_Number", .str "2")]] 0 1 (by decide) (by decide)
    (by decide)⟩

/-! ### C6 — amount parsing -/

/-- A decimal digit is none of the separator / sign / whitespace / currency
characters the amount cleaner treats specially. -/
theorem digit_facts (c : Char) (h : c.isDigit = true) :
    c.isWhitespace = false ∧ c ≠ '.' ∧ c ≠ ',' ∧ c ≠ 'e' ∧ c ≠ 'E' ∧
      c ≠ '+' ∧ c ≠ '-' ∧ c ≠ ' ' := by
  have hb : 48 ≤ c.val ∧ c.val ≤ 57 := by simpa [Char.isDigit] using h
  refine ⟨?_, ?_, ?_, ?_, ?_, ?_, ?_, ?_⟩
  · have hw : c ≠ ' ' ∧ c ≠ '\t' ∧ c ≠ '\x0d' ∧ c ≠ '\n' := by
      refine ⟨?_, ?_, ?_, ?_⟩ <;> (rintro rfl; revert hb; decide)
    simp [Char.isWhitespace, hw.1, hw.2.1, hw.2.2.1, hw.2.2.2]
  all_goals (rintro rfl; revert hb; decide)

theorem dropWhile_of_none (p : Char → Bool) (l : List Char)
    (h : ∀ c ∈ l, p c = false) : l.dropWhile p = l := by
  cases l with
  | nil => rfl
  | cons a t =>
    rw [List.dropWhile_cons_of_neg]
    simp [h a (by simp)]

theorem trimChars_eq_self (cs : List Char)
    (h : ∀ c ∈ cs, c.isWhitespace = false) : trimChars cs = cs := by
  unfold trimChars
  rw [dropWhile_of_none _ _ h, dropWhile_of_none, List.reverse_reverse]
  intro c hc
  exact h c (List.mem_reverse.mp hc)

theorem breakAtChar_none (p : Char → Bool) (cs : List Char)
    (h : ∀ c ∈ cs, p c = false) : breakAtChar p cs = (cs, none) := by
  induction cs with
  | nil => rfl
  | cons a t ih =>
    have ht := ih (fun c hc => h c (by simp [hc]))
    simp [breakAtChar, h a (by simp), ht]

theorem breakAtChar_split (p : Char → Bool) (l1 : List Char) (x : Char)
    (l2 : List Char) (h1 : ∀ c ∈ l1, p c = false) (hx : p x = true) :
    breakAtChar p (l1 ++ x :: l2) = (l1, some l2) := by
  induction l1 with
  | nil => simp [breakAtChar, hx]
  | cons a t ih =>
    have ht := ih (fun c hc => h1 c (by simp [hc]))
    simp [breakAtChar, h1 a (by simp), ht]

theorem parseSign_no_sign (cs : List Char)
    (h : ∀ c ∈ cs, c ≠ '+' ∧ c ≠ '-') : parseSign cs = (false, cs) := by
  cases cs with
  | nil => rfl
  | cons a t => simp [parseSign, (h a (by simp)).1, (h a (by simp)).2]

theorem parseNatDigits_eq (ds : List Char) (hne : ds ≠ [])
    (hd : ∀ c ∈ ds, c.isDigit = true) :
    parseNatDigits ds = some (decDigitsVal ds) := by
  have hall : ds.all Char.isDigit = true := List.all_eq_true.mpr hd
  simp [parseNatDigits, hne, hall]

/-- `float()` on a pure digit string. -/
theorem pyFloatOfString_digits (ds : List Char) (hne : ds ≠ [])
    (hd : ∀ c ∈ ds, c.isDigit = true) :
    pyFloatOfString ds.asString = some (qOfNat (decDigitsVal ds)) := by
  have h1 : trimChars ds.asString.toList = ds := by
    rw [List.toList_asString]
    exact trimChars_eq_self ds (fun c hc => (digit_facts c (hd c hc)).1)
  have h2 : parseSign ds = (false, ds) :=
    parseSign_no_sign ds (fun c hc =>
      ⟨(digit_facts c (hd c hc)).2.2.2.2.2.1,
       (digit_facts c (hd c hc)).2.2.2.2.2.2.1⟩)
  have h3 : breakAtChar (fun c => decide (c = 'e' ∨ c = 'E')) ds =
      (ds, none) := by
    apply breakAtChar_none
    intro c hc
    simp [(digit_facts c (hd c hc)).2.2.2.1, (digit_facts c (hd c hc)).2.2.2.2.1]
  have h4 : parseMantissa ds = some (qOfNat (decDigitsVal ds)) := by
    unfold parseMantissa
    rw [breakAtChar_none (fun c => decide (c = '.')) ds (fun c hc => by
      simp [(digit_facts c (hd c hc)).2.1])]
    simp [parseNatDigits_eq ds hne hd]
  unfold pyFloatOfString
  rw [h1, h2]
  simp only [h3, h4]
  simp

/-- `float()` on `digits.digits`. -/
theorem pyFloatOfString_decimal (ip fp : List Char)
    (hip : ∀ c ∈ ip, c.isDigit = true) (hfp : ∀ c ∈ fp, c.isDigit = true)
    (hne : ip ≠ [] ∨ fp ≠ []) :
    pyFloatOfString (ip ++ '.' :: fp).asString =
      some (mkRat (Int.ofNat (decDigitsVal ip * 10 ^ fp.length +
        decDigitsVal fp)) (10 ^ fp.length)) := by
  have hmem : ∀ c ∈ ip ++ '.' :: fp, c.isDigit = true ∨ c = '.' := by
    intro c hc
    rcases List.mem_append.mp hc with hc | hc
    · exact Or.inl (hip c hc)
    · rcases List.mem_cons.mp hc with hc | hc
      · exact Or.inr hc
      · exact Or.inl (hfp c hc)
  have h1 : trimChars (ip ++ '.' :: fp).asString.toList = ip ++ '.' :: fp := by
    rw [List.toList_asString]
    apply trimChars_eq_self
    intro c hc
    rcases hmem c hc with hd | hd
    · exact (digit_facts c hd).1
    · subst hd; decide
  have h2 : parseSign (ip ++ '.' :: fp) = (false, ip ++ '.' :: fp) := by
    apply parseSign_no_sign
    intro c hc
    rcases hmem c hc with hd | hd
    · exact ⟨(digit_facts c hd).2.2.2.2.2.1,
        (digit_facts c hd).2.2.2.2.2.2.1⟩
    · subst hd; exact ⟨by decide, by decide⟩
  have h3 : breakAtChar (fun c => decide (c = 'e' ∨ c = 'E'))
      (ip ++ '.' :: fp) = (ip ++ '.' :: fp, none) := by
    apply breakAtChar_none
    intro c hc
    rcases hmem c hc with hd | hd
    · simp [(digit_facts c hd).2.2.2.1, (digit_facts c hd).2.2.2.2.1]
    · subst hd; decide
  have h4 : parseMantissa (ip ++ '.' :: fp) =
      some (mkRat (Int.ofNat (decDigitsVal ip * 10 ^ fp.length +
        decDigitsVal fp)) (10 ^ fp.length)) := by
    unfold parseMantissa
    rw [breakAtChar_split (fun c => decide (c = '.')) ip '.' fp
      (fun c hc => by simp [(digit_facts c (hip c hc)).2.1]) (by decide)]
    have hipall : ip.all Char.isDigit = true := List.all_eq_true.mpr hip
    have hfpall : fp.all Char.isDigit = true := List.all_eq_true.mpr hfp
    simp [hipall, hfpall, hne]
  unfold pyFloatOfString
  rw [h1, h2]
  simp only [h3, h4]
  simp

theorem findIdx?_skip (p : Char → Bool) (A : List Char) (x : Char)
    (B : List Char) (hA : ∀ c ∈ A, p c = false) (hx : p x = true) :
    List.findIdx? p (A ++ x :: B) = some A.length := by
  induction A with
  | nil => simp [List.findIdx?_cons, hx]
  | cons a t ih =>
    have ht := ih (fun c hc => hA c (by simp [hc]))
    simp [List.findIdx?_cons, hA a (by simp), ht]

theorem rfindPos_append (x : Char) (l1 l2 : List Char)
    (h2 : ∀ c ∈ l2, c ≠ x) :
    SrcDataLoader.rfindPos x (l1 ++ x :: l2) = some l1.length := by
  unfold SrcDataLoader.rfindPos
  have hrev : (l1 ++ x :: l2).reverse = l2.reverse ++ x :: l1.reverse := by
    simp
  rw [hrev, findIdx?_skip (fun c => decide (c = x)) l2.reverse x l1.reverse
    (fun c hc => by simp [h2 c (List.mem_reverse.mp hc)]) (by simp)]
  simp only [List.length_reverse]
  congr 1
  simp only [List.length_append, List.length_cons]
  omega

theorem sentinel_false (l1 l2 : List Char) (x : Char)
    (hx : x = ',' ∨ x = '.') :
    ¬((l1 ++ x :: l2).asString = "" ∨ (l1 ++ x :: l2).asString = "nan" ∨
      (l1 ++ x :: l2).asString = "NaN") := by
  rintro (he | he | he) <;>
  · have hl := congrArg String.toList he
    rw [List.toList_asString] at hl
    have hmem : x ∈ (l1 ++ x :: l2) := by simp
    rw [hl] at hmem
    rcases hx with rfl | rfl <;> revert hmem <;> decide


theorem filter_ne_comma_digits (l : List Char)
    (h : ∀ c ∈ l, c.isDigit = true) :
    l.filter (fun c => decide (c ≠ ',')) = l :=
  List.filter_eq_self.mpr (fun c hc => by
    simp [(digit_facts c (h c hc)).2.2.1])

theorem filter_ne_dot_digits (l : List Char)
    (h : ∀ c ∈ l, c.isDigit = true) :
    l.filter (fun c => decide (c ≠ '.')) = l :=
  List.filter_eq_self.mpr (fun c hc => by
    simp [(digit_facts c (h c hc)).2.1])

theorem map_swap_digits (l : List Char) (h : ∀ c ∈ l, c.isDigit = true) :
    l.map (fun c => if c = ',' then '.' else c) = l := by
  calc l.map (fun c => if c = ',' then '.' else c) = l.map (fun c => c) :=
        List.map_congr_left (fun c hc =>
          if_neg ((digit_facts c (h c hc)).2.2.1))
    _ = l := by simp

theorem sepNormalize_comma_decimal (d1 d2 : List Char)
    (h1 : ∀ c ∈ d1, c.isDigit = true) (h2 : ∀ c ∈ d2, c.isDigit = true)
    (hne : d2 ≠ []) (hlen : d2.length ≤ 2) :
    SrcDataLoader.sepNormalize (d1 ++ ',' :: d2) = d1 ++ '.' :: d2 := by
  have hcom : (d1 ++ ',' :: d2).contains ',' = true := by
    simp [List.elem_eq_mem]
  have hdot : (d1 ++ ',' :: d2).contains '.' = false := by
    simp only [List.elem_eq_mem, decide_eq_false_iff_not]
    intro hmem
    rcases List.mem_append.mp hmem with hc | hc
    · exact (digit_facts _ (h1 _ hc)).2.1 rfl
    · rcases List.mem_cons.mp hc with hc | hc
      · exact absurd hc (by decide)
      · exact (digit_facts _ (h2 _ hc)).2.1 rfl
  have hnot : ¬((d1 ++ ',' :: d2).contains ',' = true ∧
      (d1 ++ ',' :: d2).contains '.' = true) := by
    intro hab
    rw [hdot] at hab
    exact absurd hab.2 (by decide)
  unfold SrcDataLoader.sepNormalize
  rw [if_neg hnot, if_pos hcom,
    rfindPos_append ',' d1 d2 (fun c hc => (digit_facts c (h2 c hc)).2.2.1)]
  have hdrop : (d1 ++ ',' :: d2).drop (d1.length + 1) = d2 := by
    rw [show d1 ++ ',' :: d2 = (d1 ++ [',']) ++ d2 by simp,
      show d1.length + 1 = (d1 ++ [',']).length by simp]
    exact List.drop_left _ _
  simp only [hdrop]
  have hall : d2.all Char.isDigit = true := List.all_eq_true.mpr h2
  rw [if_pos ⟨hlen, hne, hall⟩, List.map_append, List.map_cons, if_pos rfl,
    map_swap_digits d1 h1, map_swap_digits d2 h2]

theorem sepNormalize_comma_thousands (d1 d2 : List Char)
    (h1 : ∀ c ∈ d1, c.isDigit = true) (h2 : ∀ c ∈ d2, c.isDigit = true)
    (hlen3 : d2.length = 3) :
    SrcDataLoader.sepNormalize (d1 ++ ',' :: d2) = d1 ++ d2 := by
  have hcom : (d1 ++ ',' :: d2).contains ',' = true := by
    simp [List.elem_eq_mem]
  have hdot : (d1 ++ ',' :: d2).contains '.' = false := by
    simp only [List.elem_eq_mem, decide_eq_false_iff_not]
    intro hmem
    rcases List.mem_append.mp hmem with hc | hc
    · exact (digit_facts _ (h1 _ hc)).2.1 rfl
    · rcases List.mem_cons.mp hc with hc | hc
      · exact absurd hc (by decide)
      · exact (digit_facts _ (h2 _ hc)).2.1 rfl
  have hnot : ¬((d1 ++ ',' :: d2).contains ',' = true ∧
      (d1 ++ ',' :: d2).contains '.' = true) := by
    intro hab
    rw [hdot] at hab
    exact absurd hab.2 (by decide)
  unfold SrcDataLoader.sepNormalize
  rw [if_neg hnot, if_pos hcom,
    rfindPos_append ',' d1 d2 (fun c hc => (digit_facts c (h2 c hc)).2.2.1)]
  have hdrop : (d1 ++ ',' :: d2).drop (d1.length + 1) = d2 := by
    rw [show d1 ++ ',' :: d2 = (d1 ++ [',']) ++ d2 by simp,
      show d1.length + 1 = (d1 ++ [',']).length by simp]
    exact List.drop_left _ _
  simp only [hdrop]
  rw [if_neg (by intro hcond; exact absurd hcond.1 (by omega)),
    List.filter_append, filter_ne_comma_digits d1 h1, List.filter_cons,
    if_neg (by decide), filter_ne_comma_digits d2 h2]

theorem sepNormalize_dutch (a b c : List Char)
    (ha : ∀ x ∈ a, x.isDigit = true) (hb : ∀ x ∈ b, x.isDigit = true)
    (hc : ∀ x ∈ c, x.isDigit = true) :
    SrcDataLoader.sepNormalize (a ++ '.' :: (b ++ ',' :: c)) =
      (a ++ b) ++ '.' :: c := by
  have hcom : (a ++ '.' :: (b ++ ',' :: c)).contains ',' = true := by
    simp [List.elem_eq_mem]
  have hdot : (a ++ '.' :: (b ++ ',' :: c)).contains '.' = true := by
    simp [List.elem_eq_mem]
  have hrc : SrcDataLoader.rfindPos ',' (a ++ '.' :: (b ++ ',' :: c)) =
      some (a ++ '.' :: b).length := by
    rw [show a ++ '.' :: (b ++ ',' :: c) = (a ++ '.' :: b) ++ ',' :: c by
      simp]
    exact rfindPos_append ',' _ c
      (fun x hx => (digit_facts x (hc x hx)).2.2.1)
  have hrd : SrcDataLoader.rfindPos '.' (a ++ '.' :: (b ++ ',' :: c)) =
      some a.length := by
    apply rfindPos_append '.' a (b ++ ',' :: c)
    intro x hx
    rcases List.mem_append.mp hx with hx | hx
    · exact (digit_facts x (hb x hx)).2.1
    · rcases List.mem_cons.mp hx with hx | hx
      · subst hx; decide
      · exact (digit_facts x (hc x hx)).2.1
  unfold SrcDataLoader.sepNormalize
  rw [if_pos ⟨hcom, hdot⟩]
  simp only [hrc, hrd]
  rw [if_pos (by simp only [List.length_append, List.length_cons]; omega)]
  rw [List.filter_append, filter_ne_dot_digits a ha, List.filter_cons]
  have hfil : (b ++ ',' :: c).filter (fun x => decide (x ≠ '.')) =
      b ++ ',' :: c := by
    apply List.filter_eq_self.mpr
    intro x hx
    rcases List.mem_append.mp hx with hx | hx
    · simp [(digit_facts x (hb x hx)).2.1]
    · rcases List.mem_cons.mp hx with hx | hx
      · subst hx; decide
      · simp [(digit_facts x (hc x hx)).2.1]
  rw [if_neg (by decide), hfil]
  rw [List.map_append, map_swap_digits a ha, List.map_append,
    map_swap_digits b hb, List.map_cons, if_pos rfl, map_swap_digits c hc]
  simp [List.append_assoc]

theorem sepNormalize_us (a b c : List Char)
    (ha : ∀ x ∈ a, x.isDigit = true) (hb : ∀ x ∈ b, x.isDigit = true)
    (hc : ∀ x ∈ c, x.isDigit = true) :
    SrcDataLoader.sepNormalize (a ++ ',' :: (b ++ '.' :: c)) =
      (a ++ b) ++ '.' :: c := by
  have hcom : (a ++ ',' :: (b ++ '.' :: c)).contains ',' = true := by
    simp [List.elem_eq_mem]
  have hdot : (a ++ ',' :: (b ++ '.' :: c)).contains '.' = true := by
    simp [List.elem_eq_mem]
  have hrc : SrcDataLoader.rfindPos ',' (a ++ ',' :: (b ++ '.' :: c)) =
      some a.length := by
    apply rfindPos_append ',' a (b ++ '.' :: c)
    intro x hx
    rcases List.mem_append.mp hx with hx | hx
    · exact (digit_facts x (hb x hx)).2.2.1
    · rcases List.mem_cons.mp hx with hx | hx
      · subst hx; decide
      · exact (digit_facts x (hc x hx)).2.2.1
  have hrd : SrcDataLoader.rfindPos '.' (a ++ ',' :: (b ++ '.' :: c)) =
      some (a ++ ',' :: b).length := by
    rw [show a ++ ',' :: (b ++ '.' :: c) = (a ++ ',' :: b) ++ '.' :: c by
      simp]
    exact rfindPos_append '.' _ c
      (fun x hx => (digit_facts x (hc x hx)).2.1)
  unfold SrcDataLoader.sepNormalize
  rw [if_pos ⟨hcom, hdot⟩]
  simp only [hrc, hrd]
  rw [if_neg (by simp only [List.length_append, List.length_cons]; omega)]
  rw [List.filter_append, filter_ne_comma_digits a ha, List.filter_cons,
    if_neg (by decide)]
  have hfil : (b ++ '.' :: c).filter (fun x => decide (x ≠ ',')) =
      b ++ '.' :: c := by
    apply List.filter_eq_self.mpr
    intro x hx
    rcases List.mem_append.mp hx with hx | hx
    · simp [(digit_facts x (hb x hx)).2.2.1]
    · rcases List.mem_cons.mp hx with hx | hx
      · subst hx; decide
      · simp [(digit_facts x (hc x hx)).2.2.1]
  rw [hfil]
  simp [List.append_assoc]

theorem filter_ne_space_mixed (l : List Char)
    (h : ∀ c ∈ l, c.isDigit = true ∨ c = ',' ∨ c = '.') :
    l.filter (fun c => decide (¬ c = ' ')) = l := by
  apply List.filter_eq_self.mpr
  intro c hc
  rcases h c hc with hd | hd | hd
  · simp [(digit_facts c hd).2.2.2.2.2.2.2]
  · subst hd; decide
  · subst hd; decide

/-- C6: amount parsing strips currency symbols and whitespace; with both
separators present the rightmost is the decimal separator and the other is
removed; a lone comma is decimal exactly when followed by one or two digits
(otherwise removed as a thousands separator); conversion failures become
null.  Stated on the spec's three vectors, a currency-and-space vector, and
four general digit-string families, one per separator arrangement. -/
theorem amount_separator_parsing :
    SrcDataLoader.cleanAmountCell "1.234,56" = some (mkRat 123456 100) ∧
    SrcDataLoader.cleanAmountCell "1,234.56" = some (mkRat 123456 100) ∧
    SrcDataLoader.cleanAmountCell "invalid" = none ∧
    SrcDataLoader.cleanAmountCell "€ 12,30" = some (mkRat 123 10) ∧
    (∀ d1 d2 : List Char, (∀ c ∈ d1, c.isDigit = true) →
      (∀ c ∈ d2, c.isDigit = true) → d2 ≠ [] → d2.length ≤ 2 →
      SrcDataLoader.clean_amount (d1 ++ ',' :: d2).asString =
        some (mkRat (Int.ofNat (decDigitsVal d1 * 10 ^ d2.length +
          decDigitsVal d2)) (10 ^ d2.length))) ∧
    (∀ d1 d2 : List Char, (∀ c ∈ d1, c.isDigit = true) →
      (∀ c ∈ d2, c.isDigit = true) → d2.length = 3 →
      SrcDataLoader.clean_amount (d1 ++ ',' :: d2).asString =
        some (qOfNat (decDigitsVal (d1 ++ d2)))) ∧
    (∀ a b c : List Char, (∀ x ∈ a, x.isDigit = true) →
      (∀ x ∈ b, x.isDigit = true) → (∀ x ∈ c, x.isDigit = true) → a ≠ [] →
      SrcDataLoader.clean_amount (a ++ '.' :: (b ++ ',' :: c)).asString =
        some (mkRat (Int.ofNat (decDigitsVal (a ++ b) * 10 ^ c.length +
          decDigitsVal c)) (10 ^ c.length))) ∧
    (∀ a b c : List Char, (∀ x ∈ a, x.isDigit = true) →
      (∀ x ∈ b, x.isDigit = true) → (∀ x ∈ c, x.isDigit = true) → a ≠ [] →
      SrcDataLoader.clean_amount (a ++ ',' :: (b ++ '.' :: c)).asString =
        some (mkRat (Int.ofNat (decDigitsVal (a ++ b) * 10 ^ c.length +
          decDigitsVal c)) (10 ^ c.length))) := by
  refine ⟨by decide, by decide, by decide, by decide, ?_, ?_, ?_, ?_⟩
  · intro d1 d2 h1 h2 hne hlen
    unfold SrcDataLoader.clean_amount
    rw [if_neg (sentinel_false d1 d2 ',' (Or.inl rfl)), List.toList_asString,
      filter_ne_space_mixed _ (by
        intro c hc
        rcases List.mem_append.mp hc with hc | hc
        · exact Or.inl (h1 c hc)
        · rcases List.mem_cons.mp hc with hc | hc
          · exact Or.inr (Or.inl hc)
          · exact Or.inl (h2 c hc)),
      sepNormalize_comma_decimal d1 d2 h1 h2 hne hlen]
    exact pyFloatOfString_decimal d1 d2 h1 h2 (Or.inr hne)
  · intro d1 d2 h1 h2 hlen3
    unfold SrcDataLoader.clean_amount
    rw [if_neg (sentinel_false d1 d2 ',' (Or.inl rfl)), List.toList_asString,
      filter_ne_space_mixed _ (by
        intro c hc
        rcases List.mem_append.mp hc with hc | hc
        · exact Or.inl (h1 c hc)
        · rcases List.mem_cons.mp hc with hc | hc
          · exact Or.inr (Or.inl hc)
          · exact Or.inl (h2 c hc)),
      sepNormalize_comma_thousands d1 d2 h1 h2 hlen3]
    apply pyFloatOfString_digits
    · intro h
      have := (List.append_eq_nil.mp h).2
      rw [this] at hlen3
      simp at hlen3
    · intro c hc
      rcases List.mem_append.mp hc with hc | hc
      · exact h1 c hc
      · exact h2 c hc
  · intro a b c ha hb hc ha0
    unfold SrcDataLoader.clean_amount
    rw [if_neg (sentinel_false a (b ++ ',' :: c) '.' (Or.inr rfl)),
      List.toList_asString,
      filter_ne_space_mixed _ (by
        intro x hx
        rcases List.mem_append.mp hx with hx | hx
        · exact Or.inl (ha x hx)
        · rcases List.mem_cons.mp hx with hx | hx
          · exact Or.inr (Or.inr hx)
          · rcases List.mem_append.mp hx with hx | hx
            · exact Or.inl (hb x hx)
            · rcases List.mem_cons.mp hx with hx | hx
              · exact Or.inr (Or.inl hx)
              · exact Or.inl (hc x hx)),
      sepNormalize_dutch a b c ha hb hc]
    apply pyFloatOfString_decimal (a ++ b) c (by
      intro x hx
      rcases List.mem_append.mp hx with hx | hx
      · exact ha x hx
      · exact hb x hx) hc
    exact Or.inl (fun h => ha0 (List.append_eq_nil.mp h).1)
  · intro a b c ha hb hc ha0
    unfold SrcDataLoader.clean_amount
    rw [if_neg (sentinel_false a (b ++ '.' :: c) ',' (Or.inl rfl)),
      List.toList_asString,
      filter_ne_space_mixed _ (by
        intro x hx
        rcases List.mem_append.mp hx with hx | hx
        · exact Or.inl (ha x hx)
        · rcases List.mem_cons.mp hx with hx | hx
          · exact Or.inr (Or.inl hx)
          · rcases List.mem_append.mp hx with hx | hx
            · exact Or.inl (hb x hx)
            · rcases List.mem_cons.mp hx with hx | hx
              · exact Or.inr (Or.inr hx)
              · exact Or.inl (hc x hx)),
      sepNormalize_us a b c ha hb hc]
    apply pyFloatOfString_decimal (a ++ b) c (by
      intro x hx
      rcases List.mem_append.mp hx with hx | hx
      · exact ha x hx
      · exact hb x hx) hc
    exact Or.inl (fun h => ha0 (List.append_eq_nil.mp h).1)

/-- Witness for C6 at concrete digit lists. -/
theorem amount_separator_parsing_witness :
    SrcDataLoader.clean_amount (['1'] ++ ',' :: ['5']).asString =
      some (mkRat (Int.ofNat (decDigitsVal ['1'] * 10 ^
        (['5'] : List Char).length + decDigitsVal ['5']))
        (10 ^ (['5'] : List Char).length)) ∧
    SrcDataLoader.clean_amount (['1'] ++ '.' :: (['2'] ++ ',' ::
      ['5'])).asString = some (mkRat (Int.ofNat
        (decDigitsVal (['1'] ++ ['2']) * 10 ^ (['5'] : List Char).length +
          decDigitsVal ['5'])) (10 ^ (['5'] : List Char).length)) :=
  ⟨amount_separator_parsing.2.2.2.2.1 ['1'] ['5'] (by decide) (by decide)
      (by decide) (by decide),
   amount_separator_parsing.2.2.2.2.2.2.1 ['1'] ['2'] ['5'] (by decide)
      (by decide) (by decide) (by decide)⟩
